import Mathlib

/-!
Shallow embedding of the refractive-camera core (scene/camera.cc) and of the
Monte-Carlo relative-pose evaluation harness of the repository, together with
theorems settling the frozen claims about them.

Modelling conventions: real-number (double) scalars are modelled as exact
rationals.  The external catalogs of intrinsic and refraction models
(sensor/models.h, sensor/models_refrac.h), the CSV parser, the global random
generator and the transcendental angle functions are not part of the source
slice; they enter the embedding as explicit parameters (a model table, a parse
function, a draw oracle, an angle oracle), while every operation of
scene/camera.cc and of the harness translation unit is translated statement by
statement.  A non-finite (NaN) pixel result of refractive forward projection is
modelled as the none case of an Option, matching the isnan check at the only
place the source inspects it.
-/

/-- 3D vector with rational coordinates, modelling an Eigen Vector3d. -/
structure Vec3 where
  x : ℚ
  y : ℚ
  z : ℚ
deriving DecidableEq

/-- Componentwise vector addition. -/
def vadd (a b : Vec3) : Vec3 := ⟨a.x + b.x, a.y + b.y, a.z + b.z⟩

/-- Componentwise vector subtraction. -/
def vsub (a b : Vec3) : Vec3 := ⟨a.x - b.x, a.y - b.y, a.z - b.z⟩

/-- Vector negation. -/
def vneg (a : Vec3) : Vec3 := ⟨-a.x, -a.y, -a.z⟩

/-- Scalar multiple of a vector. -/
def vsmul (c : ℚ) (a : Vec3) : Vec3 := ⟨c * a.x, c * a.y, c * a.z⟩

/-- Euclidean inner product. -/
def dot3 (a b : Vec3) : ℚ := a.x * b.x + a.y * b.y + a.z * b.z

/-- Cross product. -/
def cross3 (a b : Vec3) : Vec3 :=
  ⟨a.y * b.z - a.z * b.y, a.z * b.x - a.x * b.z, a.x * b.y - a.y * b.x⟩

/-- Squared Euclidean norm. -/
def sqNorm3 (a : Vec3) : ℚ := a.x * a.x + a.y * a.y + a.z * a.z

/-- The canonical axis UnitZ. -/
def unitZ : Vec3 := ⟨0, 0, 1⟩

/-- The zero vector. -/
def vzero : Vec3 := ⟨0, 0, 0⟩

/-- Rational square root: exact on every rational that has a rational square
root (the development only evaluates it there), and 0 elsewhere.  It models the
real-valued square root used by the source through Eigen norm computations. -/
def sqrtQ (q : ℚ) : ℚ :=
  let r : ℚ := ((Nat.sqrt q.num.toNat : ℤ) : ℚ) / ((Nat.sqrt q.den : ℤ) : ℚ)
  if r * r = q then r else 0

/-- Eigen-style vector normalization: divide by the Euclidean norm. -/
def vnormalize (a : Vec3) : Vec3 :=
  let n := sqrtQ (sqNorm3 a)
  ⟨a.x / n, a.y / n, a.z / n⟩

/-- Dehomogenization of a 3D point (Eigen hnormalized): divide by z. -/
def hnorm (a : Vec3) : ℚ × ℚ := (a.x / a.z, a.y / a.z)

/-- Quaternion with rational coefficients, modelling an Eigen Quaterniond. -/
structure Quat where
  w : ℚ
  x : ℚ
  y : ℚ
  z : ℚ
deriving DecidableEq

/-- Identity quaternion. -/
def qone : Quat := ⟨1, 0, 0, 0⟩

/-- Hamilton product of quaternions. -/
def qmul (p q : Quat) : Quat :=
  ⟨p.w * q.w - p.x * q.x - p.y * q.y - p.z * q.z,
   p.w * q.x + p.x * q.w + p.y * q.z - p.z * q.y,
   p.w * q.y - p.x * q.z + p.y * q.w + p.z * q.x,
   p.w * q.z + p.x * q.y - p.y * q.x + p.z * q.w⟩

/-- Quaternion conjugate. -/
def qconj (q : Quat) : Quat := ⟨q.w, -q.x, -q.y, -q.z⟩

/-- Squared quaternion norm. -/
def qnormSq (q : Quat) : ℚ := q.w * q.w + q.x * q.x + q.y * q.y + q.z * q.z

/-- Quaternion inverse (Eigen inverse): conjugate over squared norm. -/
def qinv (q : Quat) : Quat :=
  let n := qnormSq q
  ⟨q.w / n, -q.x / n, -q.y / n, -q.z / n⟩

/-- Rotation action of a quaternion on a vector, by conjugation divided by the
squared norm.  For a unit quaternion this is the Eigen quaternion-vector
product; dividing by the squared norm makes the action invariant under nonzero
rescaling of the quaternion, so an unnormalized representative induces the same
rotation as its normalized form. -/
def qrot (q : Quat) (v : Vec3) : Vec3 :=
  let p := qmul (qmul q ⟨0, v.x, v.y, v.z⟩) (qconj q)
  let n := qnormSq q
  ⟨p.x / n, p.y / n, p.z / n⟩

/-- A 3D ray: origin and direction.  Models the Ray3D type of the source
(origin ori, direction dir, not necessarily unit). -/
structure Ray3D where
  ori : Vec3
  dir : Vec3
deriving DecidableEq

/-- Evaluate a point at a scalar distance along the ray direction, modelling
Ray3D At from the geometry header: ori + d * dir. -/
def Ray3D.At (r : Ray3D) (d : ℚ) : Vec3 := vadd r.ori (vsmul d r.dir)

/-- Rigid 3D transform (rotation quaternion plus translation), modelling the
Rigid3d type of geometry/rigid3.h. -/
structure Rigid3d where
  rotation : Quat
  translation : Vec3
deriving DecidableEq

/-- Identity rigid transform. -/
def rigidOne : Rigid3d := ⟨qone, vzero⟩

/-- Application of a rigid transform to a point: rotation times point plus
translation (operator star of rigid3.h). -/
def rigidApply (t : Rigid3d) (v : Vec3) : Vec3 := vadd (qrot t.rotation v) t.translation

/-- Composition of rigid transforms (operator star of rigid3.h):
rotation composes, translation is left rotation applied to right translation
plus left translation. -/
def rigidCompose (a b : Rigid3d) : Rigid3d :=
  ⟨qmul a.rotation b.rotation, vadd (qrot a.rotation b.translation) a.translation⟩

/-- Inverse of a rigid transform (the Inverse function of rigid3.h): the
rotation is inverted, and the translation is the inverted rotation applied to
the negated translation. -/
def rigidInverse (t : Rigid3d) : Rigid3d :=
  let rinv := qinv t.rotation
  ⟨rinv, qrot rinv (vneg t.translation)⟩

/-- The projection center of a pose: the translation of its inverse. -/
def poseCenter (t : Rigid3d) : Vec3 := (rigidInverse t).translation

/-- One entry of the external intrinsic camera-model catalog (sensor/models.h,
outside the source slice).  Modelled from the spec: each variant carries a
canonical parameter count, focal-length and principal-point parameter indices,
a parameter validator, and project/unproject maps. -/
structure CamModel where
  numParams : ℕ
  focalIdxs : List ℕ
  ppIdxs : List ℕ
  verify : List ℚ → Bool
  camFromImg : List ℚ → ℚ × ℚ → ℚ × ℚ
  imgFromCam : List ℚ → ℚ × ℚ → ℚ × ℚ

/-- One entry of the external refraction-model catalog (sensor/models_refrac.h,
outside the source slice).  Modelled from the spec: canonical parameter count,
validator, interface normal (refraction axis), refractive back projection to a
ray, and refractive forward projection which returns none when no physical ray
solution exists (the non-finite pixel signal). -/
structure RefracModel where
  numParams : ℕ
  verify : List ℚ → Bool
  axis : List ℚ → Vec3
  camFromImg : List ℚ → List ℚ → ℚ × ℚ → Ray3D
  imgFromCam : List ℚ → List ℚ → Vec3 → Option (ℚ × ℚ)

/-- The external model catalogs and utility functions the camera dispatches
into, bundled as one table.  Lookup by id or name returning none models the
failed existence checks of the source.  intersectLines is modelled from the
spec: the closest-approach point of two lines, each given by a point and a
direction (the IntersectLinesWithTolerance utility, outside the slice). -/
structure ModelTable where
  models : ℤ → Option CamModel
  modelNameToId : String → Option ℤ
  refracModels : ℤ → Option RefracModel
  refracNameToId : String → Option ℤ
  intersectLines : Vec3 → Vec3 → Vec3 → Vec3 → Vec3

/-- The Camera record of scene/camera.h: intrinsic model selection with its
parameter vector, image size, focal-length prior flag, and the optional
refraction model selection (-1, the invalid id, meaning absent) with its own
parameter vector. -/
structure Camera where
  model_id : ℤ := -1
  width : ℕ := 0
  height : ℕ := 0
  params : List ℚ := []
  prior_focal_length : Bool := false
  refrac_model_id : ℤ := -1
  refrac_params : List ℚ := []
deriving DecidableEq

/-- Resize a parameter vector to length n, keeping the existing prefix and
filling newly created entries with 0 (params resize with fill value 0). -/
def resizeFill (l : List ℚ) (n : ℕ) : List ℚ :=
  l.take n ++ List.replicate (n - l.length) 0

/-- Camera SetModelId: aborts (none) when no intrinsic model with this id
exists, otherwise selects the model and resizes the parameter vector to its
canonical length with zero fill. -/
def Camera.SetModelId (T : ModelTable) (i : ℤ) (cam : Camera) : Option Camera :=
  match T.models i with
  | none => none
  | some m => some { cam with model_id := i, params := resizeFill cam.params m.numParams }

/-- Camera SetModelIdFromName: aborts (none) when the name is unknown,
otherwise selects by the looked-up id. -/
def Camera.SetModelIdFromName (T : ModelTable) (name : String) (cam : Camera) : Option Camera :=
  match T.modelNameToId name with
  | none => none
  | some i => Camera.SetModelId T i cam

/-- Camera SetRefracModelId: aborts (none) when no refraction model with this
id exists, otherwise selects it and resizes the refraction parameter vector to
its canonical length with zero fill. -/
def Camera.SetRefracModelId (T : ModelTable) (i : ℤ) (cam : Camera) : Option Camera :=
  match T.refracModels i with
  | none => none
  | some rm =>
    some { cam with refrac_model_id := i, refrac_params := resizeFill cam.refrac_params rm.numParams }

/-- Camera SetRefracModelIdFromName via name lookup. -/
def Camera.SetRefracModelIdFromName (T : ModelTable) (name : String) (cam : Camera) :
    Option Camera :=
  match T.refracNameToId name with
  | none => none
  | some i => Camera.SetRefracModelId T i cam

/-- Verification of an intrinsic parameter vector against the selected model
(CameraModelVerifyParams dispatch); false when no model is selected. -/
def verifyParamsWith (T : ModelTable) (i : ℤ) (ps : List ℚ) : Bool :=
  match T.models i with
  | none => false
  | some m => m.verify ps

/-- Verification of a refraction parameter vector against the selected model. -/
def verifyRefracParamsWith (T : ModelTable) (i : ℤ) (ps : List ℚ) : Bool :=
  match T.refracModels i with
  | none => false
  | some rm => rm.verify ps

/-- Modelled from the spec: Camera SetParams (assignment of the intrinsic
parameter vector; its body lives in scene/camera.h, which is not part of the
slice).  Per the spec it succeeds only if the vector satisfies the selected
variant validator; otherwise it leaves the state unchanged and signals
failure. -/
def Camera.SetParams (T : ModelTable) (ps : List ℚ) (cam : Camera) : Bool × Camera :=
  if verifyParamsWith T cam.model_id ps then (true, { cam with params := ps })
  else (false, cam)

/-- Modelled from the spec: Camera SetRefracParams (assignment of the
refraction parameter vector; body in scene/camera.h, outside the slice),
guarded by the refraction validator exactly as SetParams. -/
def Camera.SetRefracParams (T : ModelTable) (ps : List ℚ) (cam : Camera) : Bool × Camera :=
  if verifyRefracParamsWith T cam.refrac_model_id ps then
    (true, { cam with refrac_params := ps })
  else (false, cam)

/-- Camera SetParamsFromString: parse the text into a numeric vector
(CSVToVector, external, passed as the parse parameter), reject and leave the
camera unchanged if the validator refuses, assign and report success
otherwise. -/
def Camera.SetParamsFromString (T : ModelTable) (parse : String → List ℚ) (s : String)
    (cam : Camera) : Bool × Camera :=
  let new_camera_params := parse s
  if verifyParamsWith T cam.model_id new_camera_params = false then (false, cam)
  else (true, { cam with params := new_camera_params })

/-- Camera SetRefracParamsFromString, the refraction analogue of
SetParamsFromString. -/
def Camera.SetRefracParamsFromString (T : ModelTable) (parse : String → List ℚ) (s : String)
    (cam : Camera) : Bool × Camera :=
  let new_refrac_params := parse s
  if verifyRefracParamsWith T cam.refrac_model_id new_refrac_params = false then (false, cam)
  else (true, { cam with refrac_params := new_refrac_params })

/-- FocalLengthIdxs of the selected intrinsic model (empty for an unknown
model, where the source dispatch would abort). -/
def Camera.FocalLengthIdxs (T : ModelTable) (cam : Camera) : List ℕ :=
  match T.models cam.model_id with
  | none => []
  | some m => m.focalIdxs

/-- PrincipalPointIdxs of the selected intrinsic model. -/
def Camera.PrincipalPointIdxs (T : ModelTable) (cam : Camera) : List ℕ :=
  match T.models cam.model_id with
  | none => []
  | some m => m.ppIdxs

/-- Camera MeanFocalLength: the average of the parameter entries at the
focal-length indices. -/
def Camera.MeanFocalLength (T : ModelTable) (cam : Camera) : ℚ :=
  let idxs := Camera.FocalLengthIdxs T cam
  (idxs.map (fun i => cam.params.getD i 0)).sum / (idxs.length : ℚ)

/-- Camera CamFromImg: unprojection through the intrinsic model only (junk
value for an unknown model, where the source dispatch would abort; every
theorem below assumes a known model). -/
def Camera.CamFromImg (T : ModelTable) (cam : Camera) (p : ℚ × ℚ) : ℚ × ℚ :=
  match T.models cam.model_id with
  | none => (0, 0)
  | some m => m.camFromImg cam.params p

/-- Camera ImgFromCam: projection through the intrinsic model only. -/
def Camera.ImgFromCam (T : ModelTable) (cam : Camera) (p : ℚ × ℚ) : ℚ × ℚ :=
  match T.models cam.model_id with
  | none => (0, 0)
  | some m => m.imgFromCam cam.params p

/-- Camera CamFromImgRefrac: refractive back projection of a pixel to a 3D ray.
Dispatches into the selected refraction model; when no refraction model is
selected this degenerates (modelled from the spec, the dispatch lives in
sensor/models_refrac.h outside the slice) to the plain unprojected ray with
origin at the nominal center and the intrinsic-only unprojection as
direction. -/
def Camera.CamFromImgRefrac (T : ModelTable) (cam : Camera) (p : ℚ × ℚ) : Ray3D :=
  match T.refracModels cam.refrac_model_id with
  | none =>
    let m := Camera.CamFromImg T cam p
    ⟨vzero, ⟨m.1, m.2, 1⟩⟩
  | some rm => rm.camFromImg cam.params cam.refrac_params p

/-- Camera ImgFromCamRefrac: refractive forward projection of a 3D point to a
pixel; none models a non-finite (NaN) pixel, the no-solution signal.  Without a
selected refraction model it degenerates (modelled from the spec) to the
intrinsic-only projection of the dehomogenized point. -/
def Camera.ImgFromCamRefrac (T : ModelTable) (cam : Camera) (v : Vec3) : Option (ℚ × ℚ) :=
  match T.refracModels cam.refrac_model_id with
  | none => some (Camera.ImgFromCam T cam (hnorm v))
  | some rm => rm.imgFromCam cam.params cam.refrac_params v

/-- Camera RefractionAxis: the interface normal of the selected refraction
model (junk zero vector when none is selected, where the source dispatch would
abort). -/
def Camera.RefractionAxis (T : ModelTable) (cam : Camera) : Vec3 :=
  match T.refracModels cam.refrac_model_id with
  | none => vzero
  | some rm => rm.axis cam.refrac_params

/-- Eigen unitOrthogonal (external): a vector orthogonal to the argument.  The
returned representative is kept unnormalized; the only quaternion built from it
acts through qrot, which is invariant under rescaling of the vector part. -/
def orthogonalVec (a : Vec3) : Vec3 :=
  if a.x = 0 ∧ a.y = 0 then ⟨0, -a.z, 0⟩ else ⟨-a.y, a.x, 0⟩

/-- Eigen Quaterniond FromTwoVectors (external), modelled for unit arguments:
for non-antiparallel unit vectors the rotation taking a to b is represented by
the quaternion with scalar part 1 + dot a b and vector part cross a b (a
positive rescaling of the unit quaternion Eigen returns, inducing the same
rotation through qrot); for antiparallel arguments it is a half-turn about an
axis orthogonal to a. -/
def fromTwoVectors (a b : Vec3) : Quat :=
  if 1 + dot3 a b = 0 then
    let u := orthogonalVec a
    ⟨0, u.x, u.y, u.z⟩
  else
    let c := cross3 a b
    ⟨1 + dot3 a b, c.x, c.y, c.z⟩

/-- Camera VirtualFromRealRotation: the rotation aligning the refraction axis
with the canonical axis UnitZ, built by FromTwoVectors.  The source normalizes
the resulting quaternion; normalization rescales by a positive real and leaves
the induced rotation qrot unchanged, so the embedding keeps the unnormalized
representative. -/
def Camera.VirtualFromRealRotation (T : ModelTable) (cam : Camera) : Quat :=
  fromTwoVectors (Camera.RefractionAxis T cam) unitZ

/-- Camera VirtualCameraCenter: intersect the line through the origin along the
refraction axis with the line through the refracted ray origin along the
negated ray direction. -/
def Camera.VirtualCameraCenter (T : ModelTable) (cam : Camera) (ray_refrac : Ray3D) : Vec3 :=
  T.intersectLines vzero (Camera.RefractionAxis T cam) ray_refrac.ori (vneg ray_refrac.dir)

/-- Camera Rescale by a positive factor: width and height are rounded to the
scaled sizes, the principal point is scaled by the realized per-axis factors,
and the focal length(s) are scaled by their mean or per axis.  none models the
aborting checks of the source: the positivity check on the factor, the
dispatch on an unknown model, and the fatal branches for principal-point or
focal-length index counts other than two, and one or two respectively. -/
def Camera.RescaleFactor (T : ModelTable) (scale : ℚ) (cam : Camera) : Option Camera :=
  if scale ≤ 0 then none
  else
    match T.models cam.model_id with
    | none => none
    | some m =>
      match m.ppIdxs with
      | [i, j] =>
        let w : ℚ := (cam.width : ℚ)
        let h : ℚ := (cam.height : ℚ)
        let scale_x : ℚ := ((round (scale * w) : ℤ) : ℚ) / w
        let scale_y : ℚ := ((round (scale * h) : ℤ) : ℚ) / h
        let width' : ℕ := (round (scale * w)).toNat
        let height' : ℕ := (round (scale * h)).toNat
        let p1 := cam.params.set i (scale_x * cam.params.getD i 0)
        let p2 := p1.set j (scale_y * p1.getD j 0)
        match m.focalIdxs with
        | [fi] =>
          some { cam with width := width'
                          height := height'
                          params := p2.set fi ((scale_x + scale_y) / 2 * p2.getD fi 0) }
        | [fa, fb] =>
          let q1 := p2.set fa (scale_x * p2.getD fa 0)
          some { cam with width := width'
                          height := height'
                          params := q1.set fb (scale_y * q1.getD fb 0) }
        | _ => none
      | _ => none

/-- Camera Rescale to a target width and height: per-axis factors are the size
ratios; otherwise identical to rescaling by a factor. -/
def Camera.RescaleSize (T : ModelTable) (nw nh : ℕ) (cam : Camera) : Option Camera :=
  match T.models cam.model_id with
  | none => none
  | some m =>
    match m.ppIdxs with
    | [i, j] =>
      let scale_x : ℚ := (nw : ℚ) / (cam.width : ℚ)
      let scale_y : ℚ := (nh : ℚ) / (cam.height : ℚ)
      let p1 := cam.params.set i (scale_x * cam.params.getD i 0)
      let p2 := p1.set j (scale_y * p1.getD j 0)
      match m.focalIdxs with
      | [fi] =>
        some { cam with width := nw
                        height := nh
                        params := p2.set fi ((scale_x + scale_y) / 2 * p2.getD fi 0) }
      | [fa, fb] =>
        let q1 := p2.set fa (scale_x * p2.getD fa 0)
        some { cam with width := nw
                        height := nh
                        params := q1.set fb (scale_y * q1.getD fb 0) }
      | _ => none
    | _ => none

/-- Camera VirtualCamera: build a SIMPLE_PINHOLE camera of the same image size
whose focal length is the (mean) focal length of the source camera and whose
principal point is image_point minus focal length times cam_point, so that the
given pair is reproduced exactly.  none models the fatal branch for a focal
index count other than one or two, and the aborting name lookup. -/
def Camera.VirtualCamera (T : ModelTable) (cam : Camera) (image_point cam_point : ℚ × ℚ) :
    Option Camera :=
  match Camera.SetModelIdFromName T "SIMPLE_PINHOLE" ({} : Camera) with
  | none => none
  | some c0 =>
    let c1 := { c0 with width := cam.width, height := cam.height }
    let idxs := Camera.FocalLengthIdxs T cam
    match idxs with
    | [i] =>
      let f := cam.params.getD i 0
      let cx := image_point.1 - f * cam_point.1
      let cy := image_point.2 - f * cam_point.2
      some (Camera.SetParams T [f, cx, cy] c1).2
    | [i, j] =>
      let f := (cam.params.getD i 0 + cam.params.getD j 0) / 2
      let cx := image_point.1 - f * cam_point.1
      let cy := image_point.2 - f * cam_point.2
      some (Camera.SetParams T [f, cx, cy] c1).2
    | _ => none

/-- Camera ComputeVirtual: cast the refractive ray of the pixel, place the
virtual camera center on the refraction axis, package the aligning rotation
and the center into the virtual-from-real transform, and fit the virtual
pinhole camera through the rotated ray direction. -/
def Camera.ComputeVirtual (T : ModelTable) (cam : Camera) (point2D : ℚ × ℚ) :
    Option (Camera × Rigid3d) :=
  let virtual_from_real_rotation := Camera.VirtualFromRealRotation T cam
  let ray_refrac := Camera.CamFromImgRefrac T cam point2D
  let virtual_cam_center := Camera.VirtualCameraCenter T cam ray_refrac
  let virtual_from_real : Rigid3d :=
    ⟨virtual_from_real_rotation, qrot virtual_from_real_rotation (vneg virtual_cam_center)⟩
  match Camera.VirtualCamera T cam point2D (hnorm (qrot virtual_from_real_rotation ray_refrac.dir)) with
  | none => none
  | some virtual_camera => some (virtual_camera, virtual_from_real)

/-- Camera ComputeVirtuals: batch ComputeVirtual, pushing one virtual camera
and one virtual-from-real transform per input pixel onto the given output
vectors (which are not cleared first). -/
def Camera.ComputeVirtuals (T : ModelTable) (cam : Camera) :
    List (ℚ × ℚ) → List Camera → List Rigid3d → Option (List Camera × List Rigid3d)
  | [], virtual_cameras, virtual_from_reals => some (virtual_cameras, virtual_from_reals)
  | point :: rest, virtual_cameras, virtual_from_reals =>
    match Camera.ComputeVirtual T cam point with
    | none => none
    | some (vc, vfr) =>
      Camera.ComputeVirtuals T cam rest (virtual_cameras ++ [vc]) (virtual_from_reals ++ [vfr])

/-- One call shape of the global random generator: a uniform real draw with
its bounds, or a Gaussian draw with its mean and standard deviation. -/
inductive Draw where
  | uniform (lo hi : ℚ)
  | gauss (mean stddev : ℚ)
deriving DecidableEq

/-- The random generator, modelled as an oracle: the value returned by the
i-th draw of the process, as a function of the distribution requested. -/
def RngOracle : Type := ℕ → Draw → ℚ

/-- State of the rejection-sampling loop of GenerateRandom2D2DPoints: index of
the next random draw, count of accepted points, and the four point lists in
acceptance order. -/
structure GenState where
  rix : ℕ
  cnt : ℕ
  p1 : List (ℚ × ℚ)
  p2 : List (ℚ × ℚ)
  p1r : List (ℚ × ℚ)
  p2r : List (ℚ × ℚ)
deriving DecidableEq

/-- The empty loop state. -/
def genInit : GenState := ⟨0, 0, [], [], [], []⟩

/-- The view-1 refractive pixel of the loop iteration whose first draw has
index j: two uniform draws over the valid image area. -/
def candP1r (cam : Camera) (rng : RngOracle) (j : ℕ) : ℚ × ℚ :=
  (rng j (Draw.uniform (1/2) ((cam.width : ℚ) - 1/2)),
   rng (j+1) (Draw.uniform (1/2) ((cam.height : ℚ) - 1/2)))

/-- The random depth of the iteration starting at draw j. -/
def candDepth (rng : RngOracle) (j : ℕ) : ℚ := rng (j+2) (Draw.uniform (1/2) 10)

/-- The 3D point of the iteration starting at draw j: the refractive ray of
the sampled pixel, evaluated at the random depth. -/
def candPoint1 (T : ModelTable) (cam : Camera) (rng : RngOracle) (j : ℕ) : Vec3 :=
  (Camera.CamFromImgRefrac T cam (candP1r cam rng j)).At (candDepth rng j)

/-- The 3D point transported into view 2 by the ground-truth pose. -/
def candPoint2 (T : ModelTable) (cam : Camera) (gt : Rigid3d) (rng : RngOracle) (j : ℕ) : Vec3 :=
  rigidApply gt (candPoint1 T cam rng j)

/-- The view-2 refractive projection of the candidate (none models NaN). -/
def candProj2r (T : ModelTable) (cam : Camera) (gt : Rigid3d) (rng : RngOracle) (j : ℕ) :
    Option (ℚ × ℚ) :=
  Camera.ImgFromCamRefrac T cam (candPoint2 T cam gt rng j)

/-- The acceptance test of the candidate at draw index j: its view-2
refractive projection is finite and inside the image bounds. -/
def candOk (T : ModelTable) (cam : Camera) (gt : Rigid3d) (rng : RngOracle) (j : ℕ) : Bool :=
  match candProj2r T cam gt rng j with
  | none => false
  | some p =>
    !(decide (p.1 < 0) || decide (p.1 > (cam.width : ℚ)) || decide (p.2 < 0) ||
      decide (p.2 > (cam.height : ℚ)))

/-- The plain (non-refractive) view-1 pixel of the candidate. -/
def candP1 (T : ModelTable) (cam : Camera) (rng : RngOracle) (j : ℕ) : ℚ × ℚ :=
  Camera.ImgFromCam T cam (hnorm (candPoint1 T cam rng j))

/-- The plain (non-refractive) view-2 pixel of the candidate. -/
def candP2 (T : ModelTable) (cam : Camera) (gt : Rigid3d) (rng : RngOracle) (j : ℕ) : ℚ × ℚ :=
  Camera.ImgFromCam T cam (hnorm (candPoint2 T cam gt rng j))

/-- Gaussian perturbation of a pixel pair with the two draws at indices j and
j+1, of mean zero and the given standard deviation. -/
def gaussAdd (rng : RngOracle) (j : ℕ) (sd : ℚ) (p : ℚ × ℚ) : ℚ × ℚ :=
  (p.1 + rng j (Draw.gauss 0 sd), p.2 + rng (j+1) (Draw.gauss 0 sd))

/-- The four stored pixel pairs (plain view 1, plain view 2, refractive view 1,
refractive view 2) produced by an accepted iteration starting at draw j when it
is the k-th accepted point: inliers (k below the inlier count) receive per-
coordinate Gaussian noise of the configured level when it is positive and no
noise otherwise, later points receive Gaussian noise of standard deviation
200. -/
def storedQuad (T : ModelTable) (cam : Camera) (gt : Rigid3d) (rng : RngOracle)
    (numInliers : ℕ) (noise : ℚ) (j k : ℕ) : (ℚ × ℚ) × (ℚ × ℚ) × (ℚ × ℚ) × (ℚ × ℚ) :=
  let p1 := candP1 T cam rng j
  let p2 := candP2 T cam gt rng j
  let p1r := candP1r cam rng j
  let p2r := (candProj2r T cam gt rng j).getD (0, 0)
  if k < numInliers then
    if 0 < noise then
      (gaussAdd rng (j+3) noise p1, gaussAdd rng (j+7) noise p2,
       gaussAdd rng (j+5) noise p1r, gaussAdd rng (j+9) noise p2r)
    else (p1, p2, p1r, p2r)
  else
    (gaussAdd rng (j+3) 200 p1, gaussAdd rng (j+7) 200 p2,
     gaussAdd rng (j+5) 200 p1r, gaussAdd rng (j+9) 200 p2r)

/-- One iteration of the rejection-sampling loop of GenerateRandom2D2DPoints:
break when enough points are accepted; otherwise sample a candidate (three
uniform draws), reject it when its view-2 refractive projection is NaN or out
of bounds, and otherwise push the four (possibly noised) pixel pairs. -/
def genIter (T : ModelTable) (cam : Camera) (gt : Rigid3d) (numPoints numInliers : ℕ)
    (noise : ℚ) (rng : RngOracle) (s : GenState) : GenState :=
  if numPoints ≤ s.cnt then s
  else
    let j := s.rix
    match candProj2r T cam gt rng j with
    | none => { s with rix := j + 3 }
    | some point2D2_refrac =>
      if point2D2_refrac.1 < 0 ∨ point2D2_refrac.1 > (cam.width : ℚ) ∨
         point2D2_refrac.2 < 0 ∨ point2D2_refrac.2 > (cam.height : ℚ) then
        { s with rix := j + 3 }
      else
        let q := storedQuad T cam gt rng numInliers noise j s.cnt
        let consumed : ℕ := if s.cnt < numInliers ∧ ¬(0 < noise) then 3 else 11
        { s with rix := j + consumed
                 cnt := s.cnt + 1
                 p1 := s.p1 ++ [q.1]
                 p2 := s.p2 ++ [q.2.1]
                 p1r := s.p1r ++ [q.2.2.1]
                 p2r := s.p2r ++ [q.2.2.2] }

/-- The rejection-sampling loop, run for a given amount of fuel.  The source
loops unboundedly (while true); the embedding runs the loop body fuel times,
and the loop has exited normally exactly when the accepted count has reached
numPoints. -/
def genLoop (T : ModelTable) (cam : Camera) (gt : Rigid3d) (numPoints numInliers : ℕ)
    (noise : ℚ) (rng : RngOracle) : ℕ → GenState → GenState
  | 0, s => s
  | fuel + 1, s => genLoop T cam gt numPoints numInliers noise rng fuel
      (genIter T cam gt numPoints numInliers noise rng s)

/-- The PointsData record of the harness: the four parallel pixel lists, the
virtual cameras and transforms of both views, and the ground-truth relative
pose. -/
structure PointsData where
  points2D1 : List (ℚ × ℚ) := []
  points2D1_refrac : List (ℚ × ℚ) := []
  points2D2 : List (ℚ × ℚ) := []
  points2D2_refrac : List (ℚ × ℚ) := []
  virtual_cameras1 : List Camera := []
  virtual_cameras2 : List Camera := []
  virtual_from_reals1 : List Rigid3d := []
  virtual_from_reals2 : List Rigid3d := []
  cam2_from_cam1_gt : Rigid3d := rigidOne
deriving DecidableEq

/-- GenerateRandom2D2DPoints: clear the four pixel lists, record the ground
truth, compute the inlier count as the floor of numPoints times the inlier
ratio, run the rejection-sampling loop (with the given fuel standing in for
the unbounded source loop), then append the virtual cameras and transforms of
both views to the (not cleared) virtual vectors. -/
def GenerateRandom2D2DPoints (T : ModelTable) (cam : Camera) (numPoints : ℕ) (gt : Rigid3d)
    (pd : PointsData) (noise inlierRatio : ℚ) (rng : RngOracle) (fuel : ℕ) :
    Option PointsData :=
  let numInliers : ℕ := ⌊(numPoints : ℚ) * inlierRatio⌋₊
  let s := genLoop T cam gt numPoints numInliers noise rng fuel genInit
  let pd1 := { pd with points2D1 := s.p1
                       points2D2 := s.p2
                       points2D1_refrac := s.p1r
                       points2D2_refrac := s.p2r
                       cam2_from_cam1_gt := gt }
  match Camera.ComputeVirtuals T cam pd1.points2D1_refrac pd1.virtual_cameras1
      pd1.virtual_from_reals1 with
  | none => none
  | some (vc1, vfr1) =>
    match Camera.ComputeVirtuals T cam pd1.points2D2_refrac pd1.virtual_cameras2
        pd1.virtual_from_reals2 with
    | none => none
    | some (vc2, vfr2) =>
      some { pd1 with virtual_cameras1 := vc1
                      virtual_from_reals1 := vfr1
                      virtual_cameras2 := vc2
                      virtual_from_reals2 := vfr2 }

/-- RelativePoseError of the angular-error harness variant: rotation error is
the angle (through the external angleDeg oracle, modelling RadToDeg of the
Eigen angle-axis angle) of the relative rotation of the translation-normalized
poses; angular error is the arccos (through the external acosDeg oracle) of
the absolute dot product of the normalized translations; in the refractive
case the scale error is the absolute difference of the baseline norms of the
un-normalized poses, otherwise zero.  Returns (rotation error, angular error,
scale error). -/
def RelativePoseError (angleDeg : Quat → ℚ) (acosDeg : ℚ → ℚ)
    (cam2_from_cam1_gt cam2_from_cam1_est : Rigid3d) (is_refractive : Bool) : ℚ × ℚ × ℚ :=
  let gt_norm : Rigid3d :=
    { cam2_from_cam1_gt with translation := vnormalize cam2_from_cam1_gt.translation }
  let est_norm : Rigid3d :=
    { cam2_from_cam1_est with translation := vnormalize cam2_from_cam1_est.translation }
  let diff := rigidCompose gt_norm (rigidInverse est_norm)
  let rotation_error := angleDeg diff.rotation
  let cos_theta := dot3 gt_norm.translation est_norm.translation
  let cos_theta := if cos_theta < 0 then -cos_theta else cos_theta
  let angular_error := acosDeg cos_theta
  let scale_error :=
    if is_refractive then
      let baseline_est :=
        sqrtQ (sqNorm3 (qrot (qinv cam2_from_cam1_est.rotation)
          (vneg cam2_from_cam1_est.translation)))
      let baseline_gt :=
        sqrtQ (sqNorm3 (qrot (qinv cam2_from_cam1_gt.rotation)
          (vneg cam2_from_cam1_gt.translation)))
      |baseline_gt - baseline_est|
    else 0
  (rotation_error, angular_error, scale_error)

/-- PoseError of the positional-error harness variant: in the non-refractive
branch the ground-truth translation is normalized, the rotation error is the
angle of the relative rotation, and the position error is the distance between
the camera centers of the translation-normalized ground truth and of the
estimate, in millimeters (times 1000); the refractive branch is identical but
never normalizes.  Returns (rotation error, position error). -/
def PoseError (angleDeg : Quat → ℚ) (cam2_from_cam1_gt cam2_from_cam1_est : Rigid3d)
    (is_refractive : Bool) : ℚ × ℚ :=
  if is_refractive = false then
    let gt_norm : Rigid3d :=
      { cam2_from_cam1_gt with translation := vnormalize cam2_from_cam1_gt.translation }
    let diff := rigidCompose gt_norm (rigidInverse cam2_from_cam1_est)
    (angleDeg diff.rotation,
     sqrtQ (sqNorm3 (vsub (rigidInverse gt_norm).translation
       (rigidInverse cam2_from_cam1_est).translation)) * 1000)
  else
    let diff := rigidCompose cam2_from_cam1_gt (rigidInverse cam2_from_cam1_est)
    (angleDeg diff.rotation,
     sqrtQ (sqNorm3 (vsub (rigidInverse cam2_from_cam1_gt).translation
       (rigidInverse cam2_from_cam1_est).translation)) * 1000)

/-- The refractive error step of the positional-error harness Evaluate loop:
the estimated pose translation is normalized in place, then PoseError is
invoked with is_refractive set to false. -/
def EvalRefracPoseError (angleDeg : Quat → ℚ) (cam2_from_cam1_gt cam2_from_cam1_est : Rigid3d) :
    ℚ × ℚ :=
  let est := { cam2_from_cam1_est with
               translation := vnormalize cam2_from_cam1_est.translation }
  PoseError angleDeg cam2_from_cam1_gt est false

/-- The SIMPLE_PINHOLE intrinsic variant, modelled from the spec: parameters
(f, cx, cy), one shared focal length, projection f * m + c and its inverse. -/
def simplePinholeModel : CamModel where
  numParams := 3
  focalIdxs := [0]
  ppIdxs := [1, 2]
  verify := fun ps => ps.length == 3
  camFromImg := fun ps p =>
    ((p.1 - ps.getD 1 0) / ps.getD 0 0, (p.2 - ps.getD 2 0) / ps.getD 0 0)
  imgFromCam := fun ps p =>
    (ps.getD 0 0 * p.1 + ps.getD 1 0, ps.getD 0 0 * p.2 + ps.getD 2 0)

/-- The PINHOLE intrinsic variant, modelled from the spec: parameters
(fx, fy, cx, cy), two focal lengths. -/
def pinholeModel : CamModel where
  numParams := 4
  focalIdxs := [0, 1]
  ppIdxs := [2, 3]
  verify := fun ps => ps.length == 4
  camFromImg := fun ps p =>
    ((p.1 - ps.getD 2 0) / ps.getD 0 0, (p.2 - ps.getD 3 0) / ps.getD 1 0)
  imgFromCam := fun ps p =>
    (ps.getD 0 0 * p.1 + ps.getD 2 0, ps.getD 1 0 * p.2 + ps.getD 3 0)

/-- A concrete flat-port refraction variant used to instantiate witnesses: 8
parameters whose first three are the interface normal (the refraction axis);
the ray maps are arbitrary representatives of the external catalog, which the
theorems quantify over. -/
def flatportWitnessModel : RefracModel where
  numParams := 8
  verify := fun ps => ps.length == 8
  axis := fun ps => ⟨ps.getD 0 0, ps.getD 1 0, ps.getD 2 0⟩
  camFromImg := fun _ _ p => ⟨vzero, ⟨p.1, p.2, 1⟩⟩
  imgFromCam := fun _ _ v => some (v.x, v.y)

/-- A refraction variant whose forward projection never has a solution,
used to instantiate the non-termination witness. -/
def rejectingRefracModel : RefracModel where
  numParams := 8
  verify := fun ps => ps.length == 8
  axis := fun ps => ⟨ps.getD 0 0, ps.getD 1 0, ps.getD 2 0⟩
  camFromImg := fun _ _ p => ⟨vzero, ⟨p.1, p.2, 1⟩⟩
  imgFromCam := fun _ _ _ => none

/-- A concrete model table used to instantiate witnesses: SIMPLE_PINHOLE at
intrinsic id 0, PINHOLE at id 1, the flat-port witness variant at refraction
id 7 and the rejecting variant at id 8. -/
def wTable : ModelTable where
  models := fun i => if i = 0 then some simplePinholeModel
    else if i = 1 then some pinholeModel else none
  modelNameToId := fun n => if n = "SIMPLE_PINHOLE" then some 0
    else if n = "PINHOLE" then some 1 else none
  refracModels := fun i => if i = 7 then some flatportWitnessModel
    else if i = 8 then some rejectingRefracModel else none
  refracNameToId := fun n => if n = "FLATPORT" then some 7 else none
  intersectLines := fun _ _ p2 _ => p2

/-- The virtual camera and transform ComputeVirtual produces for a pixel (the
some value; junk default when ComputeVirtual aborts). -/
def computedVirtualPair (T : ModelTable) (cam : Camera) (p : ℚ × ℚ) : Camera × Rigid3d :=
  (Camera.ComputeVirtual T cam p).getD (({} : Camera), rigidOne)

/-- The shape of a fitted virtual camera: SIMPLE_PINHOLE (at the table id the
name resolves to) with the source camera's size, focal length f, and the
principal point solved from the pixel and the camera-space direction. -/
def fittedVirtualCamera (spId : ℤ) (cam : Camera) (img cp : ℚ × ℚ) (f : ℚ) : Camera :=
  { model_id := spId
    width := cam.width
    height := cam.height
    params := [f, img.1 - f * cp.1, img.2 - f * cp.2] }

/-- The public mutating camera operations named by the configuration-invariant
claim: model selection by id or name for both model kinds, parameter
assignment from vectors or strings, and both rescale overloads. -/
inductive CameraOp where
  | selModelId (i : ℤ)
  | selModelName (name : String)
  | selRefracModelId (i : ℤ)
  | selRefracModelName (name : String)
  | assignParams (ps : List ℚ)
  | assignRefracParams (ps : List ℚ)
  | assignParamsFromString (parse : String → List ℚ) (s : String)
  | assignRefracParamsFromString (parse : String → List ℚ) (s : String)
  | rescaleFactor (scale : ℚ)
  | rescaleSize (nw nh : ℕ)

/-- Apply one mutating operation; none models the aborting existence and
fatal checks, and the boolean result of the assignment operations is
discarded as at the call sites. -/
def applyOp (T : ModelTable) : CameraOp → Camera → Option Camera
  | CameraOp.selModelId i, cam => Camera.SetModelId T i cam
  | CameraOp.selModelName n, cam => Camera.SetModelIdFromName T n cam
  | CameraOp.selRefracModelId i, cam => Camera.SetRefracModelId T i cam
  | CameraOp.selRefracModelName n, cam => Camera.SetRefracModelIdFromName T n cam
  | CameraOp.assignParams ps, cam => some (Camera.SetParams T ps cam).2
  | CameraOp.assignRefracParams ps, cam => some (Camera.SetRefracParams T ps cam).2
  | CameraOp.assignParamsFromString parse s, cam =>
    some (Camera.SetParamsFromString T parse s cam).2
  | CameraOp.assignRefracParamsFromString parse s, cam =>
    some (Camera.SetRefracParamsFromString T parse s cam).2
  | CameraOp.rescaleFactor sc, cam => Camera.RescaleFactor T sc cam
  | CameraOp.rescaleSize nw nh, cam => Camera.RescaleSize T nw nh cam

/-- Sequential application of a list of mutating operations. -/
def applyOps (T : ModelTable) : List CameraOp → Camera → Option Camera
  | [], cam => some cam
  | op :: rest, cam =>
    match applyOp T op cam with
    | none => none
    | some cam' => applyOps T rest cam'

/-- The parameter-length invariant: whenever an intrinsic or refraction
variant is selected, the corresponding parameter vector has the variant's
canonical length. -/
def paramsLenInv (T : ModelTable) (cam : Camera) : Prop :=
  (∀ m, T.models cam.model_id = some m → cam.params.length = m.numParams) ∧
  (∀ rm, T.refracModels cam.refrac_model_id = some rm →
    cam.refrac_params.length = rm.numParams)

/-- Sanity of the external catalog, from the spec contract for pluggable
variants: a validator accepts only vectors of the variant's canonical
length. -/
def saneTable (T : ModelTable) : Prop :=
  (∀ i m, T.models i = some m → ∀ ps, m.verify ps = true → ps.length = m.numParams) ∧
  (∀ i rm, T.refracModels i = some rm → ∀ ps, rm.verify ps = true → ps.length = rm.numParams)

/-- Invariant of the rejection-sampling loop: the four point lists grow in
lockstep with the accepted count, and some strictly increasing sequence of
draw indices, all below the next draw index, marks the accepted candidates:
the k-th stored entries of the four lists are exactly the k-th accepted
candidate's four (possibly noised) pixel pairs. -/
def genInv (T : ModelTable) (cam : Camera) (gt : Rigid3d) (numInliers : ℕ)
    (noise : ℚ) (rng : RngOracle) (s : GenState) : Prop :=
  s.p1.length = s.cnt ∧ s.p2.length = s.cnt ∧ s.p1r.length = s.cnt ∧ s.p2r.length = s.cnt ∧
  ∃ js : List ℕ, js.length = s.cnt ∧ js.Pairwise (· < ·) ∧ (∀ a ∈ js, a < s.rix) ∧
    ∀ k, k < s.cnt →
      candOk T cam gt rng (js.getD k 0) = true ∧
      s.p1.getD k (0, 0) = (storedQuad T cam gt rng numInliers noise (js.getD k 0) k).1 ∧
      s.p2.getD k (0, 0) = (storedQuad T cam gt rng numInliers noise (js.getD k 0) k).2.1 ∧
      s.p1r.getD k (0, 0) = (storedQuad T cam gt rng numInliers noise (js.getD k 0) k).2.2.1 ∧
      s.p2r.getD k (0, 0) = (storedQuad T cam gt rng numInliers noise (js.getD k 0) k).2.2.2

/-- A concrete refractive camera used to instantiate witnesses: PINHOLE
intrinsics, flat-port witness refraction with axis (0, 0, 1). -/
def wRefracCam : Camera :=
  { model_id := 1
    width := 10
    height := 10
    params := [2, 4, 5, 5]
    refrac_model_id := 7
    refrac_params := [0, 0, 1, 2, 1, 1, 5/2, 9/5] }

/-- The witness camera with the always-rejecting refraction variant. -/
def wRejectCam : Camera := { wRefracCam with refrac_model_id := 8 }

/-- A concrete draw oracle used to instantiate witnesses: every draw returns
one half. -/
def wRng : RngOracle := fun _ _ => 1/2

/-- The witness camera with a tilted unit interface normal (3/5, 0, 4/5). -/
def wTiltCam : Camera := { wRefracCam with refrac_params := [3/5, 0, 4/5, 2, 1, 1, 5/2, 9/5] }

/-- The frame condition of Rescale: only the image size, the principal point
(scaled by the per-axis factors sx and sy) and the focal lengths change; the
intrinsic and refraction model selections, the whole refraction parameter
vector, the prior flag, the parameter-vector length and every parameter entry
outside the principal-point and focal-length indices are unchanged. -/
def rescaleEffect (cam cam' : Camera) (ppi ppj : ℕ) (fIdxs : List ℕ) (sx sy : ℚ)
    (nw nh : ℕ) : Prop :=
  cam'.model_id = cam.model_id ∧
  cam'.refrac_model_id = cam.refrac_model_id ∧
  cam'.refrac_params = cam.refrac_params ∧
  cam'.prior_focal_length = cam.prior_focal_length ∧
  cam'.width = nw ∧
  cam'.height = nh ∧
  cam'.params.length = cam.params.length ∧
  cam'.params.getD ppi 0 = sx * cam.params.getD ppi 0 ∧
  cam'.params.getD ppj 0 = sy * cam.params.getD ppj 0 ∧
  (∀ k, k ≠ ppi → k ≠ ppj → k ∉ fIdxs → cam'.params.getD k 0 = cam.params.getD k 0)

/-- getD after set at the written index. -/
theorem getD_set_self {α : Type} [Inhabited α] (l : List α) (i : ℕ) (a d : α)
    (h : i < l.length) : (l.set i a).getD i d = a := by
  simp [List.getD_eq_getElem?_getD, List.getElem?_set_self', h]

/-- getD after set at a different index. -/
theorem getD_set_ne {α : Type} [Inhabited α] (l : List α) (i k : ℕ) (a d : α)
    (h : i ≠ k) : (l.set i a).getD k d = l.getD k d := by
  simp [List.getD_eq_getElem?_getD, List.getElem?_set_ne h]

/-- getD of an append, inside the first list. -/
theorem getD_append_left {α : Type} [Inhabited α] (l l2 : List α) (i : ℕ) (d : α)
    (h : i < l.length) : (l ++ l2).getD i d = l.getD i d := by
  simp [List.getD_eq_getElem?_getD, List.getElem?_append_left h]

/-- getD of a one-element append at the seam. -/
theorem getD_append_last {α : Type} [Inhabited α] (l : List α) (v d : α) :
    (l ++ [v]).getD l.length d = v := by
  simp [List.getD_eq_getElem?_getD]

/-- C4: parameter assignment — from a parsed string through
SetParamsFromString and SetRefracParamsFromString, and from a numeric vector
through SetParams and SetRefracParams — succeeds exactly when the selected
variant's validator accepts the new vector; when the validator rejects, the
operation returns false and the camera, parameter vectors and all other state
included, is unchanged; on success only the assigned parameter vector
changes. -/
theorem setParams_validator_semantics (T : ModelTable) (parse : String → List ℚ)
    (s : String) (ps : List ℚ) (cam : Camera) :
    (((Camera.SetParamsFromString T parse s cam).1 = true ↔
        verifyParamsWith T cam.model_id (parse s) = true) ∧
      ((Camera.SetParamsFromString T parse s cam).1 = false →
        (Camera.SetParamsFromString T parse s cam).2 = cam) ∧
      ((Camera.SetParamsFromString T parse s cam).1 = true →
        (Camera.SetParamsFromString T parse s cam).2 = { cam with params := parse s })) ∧
    (((Camera.SetRefracParamsFromString T parse s cam).1 = true ↔
        verifyRefracParamsWith T cam.refrac_model_id (parse s) = true) ∧
      ((Camera.SetRefracParamsFromString T parse s cam).1 = false →
        (Camera.SetRefracParamsFromString T parse s cam).2 = cam) ∧
      ((Camera.SetRefracParamsFromString T parse s cam).1 = true →
        (Camera.SetRefracParamsFromString T parse s cam).2 =
          { cam with refrac_params := parse s })) ∧
    (((Camera.SetParams T ps cam).1 = true ↔ verifyParamsWith T cam.model_id ps = true) ∧
      ((Camera.SetParams T ps cam).1 = false → (Camera.SetParams T ps cam).2 = cam) ∧
      ((Camera.SetParams T ps cam).1 = true →
        (Camera.SetParams T ps cam).2 = { cam with params := ps })) ∧
    (((Camera.SetRefracParams T ps cam).1 = true ↔
        verifyRefracParamsWith T cam.refrac_model_id ps = true) ∧
      ((Camera.SetRefracParams T ps cam).1 = false →
        (Camera.SetRefracParams T ps cam).2 = cam) ∧
      ((Camera.SetRefracParams T ps cam).1 = true →
        (Camera.SetRefracParams T ps cam).2 = { cam with refrac_params := ps })) := by
  refine ⟨?_, ?_, ?_, ?_⟩
  · cases h : verifyParamsWith T cam.model_id (parse s) <;>
      simp [Camera.SetParamsFromString, h]
  · cases h : verifyRefracParamsWith T cam.refrac_model_id (parse s) <;>
      simp [Camera.SetRefracParamsFromString, h]
  · cases h : verifyParamsWith T cam.model_id ps <;> simp [Camera.SetParams, h]
  · cases h : verifyRefracParamsWith T cam.refrac_model_id ps <;>
      simp [Camera.SetRefracParams, h]

/-- Concrete instantiation of the C4 theorem: a PINHOLE camera, a rejected
short vector and a parse function producing it. -/
theorem setParams_validator_semantics_witness :
    let cam : Camera := { model_id := 1, width := 8, height := 6, params := [2, 2, 4, 3] }
    let parse : String → List ℚ := fun _ => [5, 5]
    (((Camera.SetParamsFromString wTable parse "5;5" cam).1 = true ↔
        verifyParamsWith wTable cam.model_id (parse "5;5") = true) ∧
      ((Camera.SetParamsFromString wTable parse "5;5" cam).1 = false →
        (Camera.SetParamsFromString wTable parse "5;5" cam).2 = cam) ∧
      ((Camera.SetParamsFromString wTable parse "5;5" cam).1 = true →
        (Camera.SetParamsFromString wTable parse "5;5" cam).2 =
          { cam with params := parse "5;5" })) ∧
    (((Camera.SetRefracParamsFromString wTable parse "5;5" cam).1 = true ↔
        verifyRefracParamsWith wTable cam.refrac_model_id (parse "5;5") = true) ∧
      ((Camera.SetRefracParamsFromString wTable parse "5;5" cam).1 = false →
        (Camera.SetRefracParamsFromString wTable parse "5;5" cam).2 = cam) ∧
      ((Camera.SetRefracParamsFromString wTable parse "5;5" cam).1 = true →
        (Camera.SetRefracParamsFromString wTable parse "5;5" cam).2 =
          { cam with refrac_params := parse "5;5" })) ∧
    (((Camera.SetParams wTable [7, 7, 1, 1] cam).1 = true ↔
        verifyParamsWith wTable cam.model_id [7, 7, 1, 1] = true) ∧
      ((Camera.SetParams wTable [7, 7, 1, 1] cam).1 = false →
        (Camera.SetParams wTable [7, 7, 1, 1] cam).2 = cam) ∧
      ((Camera.SetParams wTable [7, 7, 1, 1] cam).1 = true →
        (Camera.SetParams wTable [7, 7, 1, 1] cam).2 =
          { cam with params := [7, 7, 1, 1] })) ∧
    (((Camera.SetRefracParams wTable [7, 7, 1, 1] cam).1 = true ↔
        verifyRefracParamsWith wTable cam.refrac_model_id [7, 7, 1, 1] = true) ∧
      ((Camera.SetRefracParams wTable [7, 7, 1, 1] cam).1 = false →
        (Camera.SetRefracParams wTable [7, 7, 1, 1] cam).2 = cam) ∧
      ((Camera.SetRefracParams wTable [7, 7, 1, 1] cam).1 = true →
        (Camera.SetRefracParams wTable [7, 7, 1, 1] cam).2 =
          { cam with refrac_params := [7, 7, 1, 1] })) :=
  setParams_validator_semantics wTable (fun _ => [5, 5]) "5;5" [7, 7, 1, 1]
    { model_id := 1, width := 8, height := 6, params := [2, 2, 4, 3] }

/-- C8: for a camera with no refraction model selected, refractive
unprojection returns the plain unprojected ray — origin at the nominal camera
center, direction the intrinsic-only unprojection — and refractive projection
coincides exactly with the intrinsic-only projection of the dehomogenized
point; the agreement being exact, it holds in particular within 1e-9. -/
theorem refrac_noop_when_disabled (T : ModelTable) (cam : Camera) (p : ℚ × ℚ) (v : Vec3)
    (hid : cam.refrac_model_id = -1) (hT : T.refracModels (-1) = none) :
    Camera.CamFromImgRefrac T cam p =
      ⟨vzero, ⟨(Camera.CamFromImg T cam p).1, (Camera.CamFromImg T cam p).2, 1⟩⟩ ∧
    Camera.ImgFromCamRefrac T cam v = some (Camera.ImgFromCam T cam (hnorm v)) := by
  have h : T.refracModels cam.refrac_model_id = none := by rw [hid]; exact hT
  constructor
  · simp [Camera.CamFromImgRefrac, h]
  · simp [Camera.ImgFromCamRefrac, h]

/-- Concrete instantiation of the C8 theorem: a SIMPLE_PINHOLE camera without
refraction, checked at pixel (7, 9) and 3D point (1, 2, 5). -/
theorem refrac_noop_when_disabled_witness :
    let cam : Camera := { model_id := 0, width := 10, height := 10, params := [2, 3, 4] }
    cam.refrac_model_id = -1 ∧ wTable.refracModels (-1) = none ∧
    (Camera.CamFromImgRefrac wTable cam (7, 9) =
      ⟨vzero, ⟨(Camera.CamFromImg wTable cam (7, 9)).1,
               (Camera.CamFromImg wTable cam (7, 9)).2, 1⟩⟩ ∧
     Camera.ImgFromCamRefrac wTable cam ⟨1, 2, 5⟩ =
       some (Camera.ImgFromCam wTable cam (hnorm ⟨1, 2, 5⟩))) :=
  ⟨rfl, rfl, refrac_noop_when_disabled wTable
    { model_id := 0, width := 10, height := 10, params := [2, 3, 4] } (7, 9) ⟨1, 2, 5⟩ rfl rfl⟩

/-- ComputeVirtuals, when ComputeVirtual succeeds on every pixel, appends one
computed pair per pixel, in input order, after the entries already present in
the output vectors. -/
theorem computeVirtuals_eq_append (T : ModelTable) (cam : Camera) (pts : List (ℚ × ℚ)) :
    ∀ (vcs : List Camera) (vfrs : List Rigid3d),
    (∀ p ∈ pts, (Camera.ComputeVirtual T cam p).isSome = true) →
    Camera.ComputeVirtuals T cam pts vcs vfrs =
      some (vcs ++ pts.map (fun p => (computedVirtualPair T cam p).1),
            vfrs ++ pts.map (fun p => (computedVirtualPair T cam p).2)) := by
  induction pts with
  | nil => intro vcs vfrs _; simp [Camera.ComputeVirtuals]
  | cons p rest ih =>
    intro vcs vfrs h
    have hp : (Camera.ComputeVirtual T cam p).isSome = true := h p (by simp)
    obtain ⟨pair, hpair⟩ := Option.isSome_iff_exists.mp hp
    obtain ⟨vc, vfr⟩ := pair
    have hcp : computedVirtualPair T cam p = (vc, vfr) := by
      simp [computedVirtualPair, hpair]
    have hrest := ih (vcs ++ [vc]) (vfrs ++ [vfr]) (fun q hq => h q (by simp [hq]))
    simp only [Camera.ComputeVirtuals, hpair]
    rw [hrest]
    simp [hcp]

/-- C10: ComputeVirtuals appends to its output vectors without clearing them:
the entries already present are preserved as a prefix, exactly one
(virtual camera, virtual-from-real) pair per input pixel is pushed after them
in input order, each output vector's final size is its initial size plus the
number of input pixels, and the direct one-output-pair-per-input-pixel index
correspondence holds when the vectors passed in are empty. -/
theorem computeVirtuals_appends (T : ModelTable) (cam : Camera) (pts : List (ℚ × ℚ))
    (vcs : List Camera) (vfrs : List Rigid3d)
    (h : ∀ p ∈ pts, (Camera.ComputeVirtual T cam p).isSome = true) :
    Camera.ComputeVirtuals T cam pts vcs vfrs =
      some (vcs ++ pts.map (fun p => (computedVirtualPair T cam p).1),
            vfrs ++ pts.map (fun p => (computedVirtualPair T cam p).2)) ∧
    (∀ vcs' vfrs', Camera.ComputeVirtuals T cam pts vcs vfrs = some (vcs', vfrs') →
      vcs'.length = vcs.length + pts.length ∧ vfrs'.length = vfrs.length + pts.length ∧
      vcs'.take vcs.length = vcs ∧ vfrs'.take vfrs.length = vfrs) ∧
    (vcs = [] → vfrs = [] →
      Camera.ComputeVirtuals T cam pts vcs vfrs =
        some (pts.map (fun p => (computedVirtualPair T cam p).1),
              pts.map (fun p => (computedVirtualPair T cam p).2))) := by
  have main := computeVirtuals_eq_append T cam pts vcs vfrs h
  refine ⟨main, ?_, ?_⟩
  · intro vcs' vfrs' hv
    have heq := main.symm.trans hv
    simp only [Option.some.injEq, Prod.mk.injEq] at heq
    obtain ⟨h1, h2⟩ := heq
    subst h1; subst h2
    refine ⟨by simp, by simp, ?_, ?_⟩
    · simp [List.take_left]
    · simp [List.take_left]
  · intro h1 h2; subst h1; subst h2; simpa using main

/-- Concrete instantiation of the C10 theorem: one input pixel, output vectors
already holding one entry each. -/
theorem computeVirtuals_appends_witness :
    (∀ p ∈ [((1 : ℚ), (2 : ℚ))], (Camera.ComputeVirtual wTable wRefracCam p).isSome = true) ∧
    (Camera.ComputeVirtuals wTable wRefracCam [(1, 2)] [wRejectCam] [rigidOne] =
      some ([wRejectCam] ++
              [((1 : ℚ), (2 : ℚ))].map (fun p => (computedVirtualPair wTable wRefracCam p).1),
            [rigidOne] ++
              [((1 : ℚ), (2 : ℚ))].map (fun p => (computedVirtualPair wTable wRefracCam p).2)) ∧
    (∀ vcs' vfrs',
      Camera.ComputeVirtuals wTable wRefracCam [(1, 2)] [wRejectCam] [rigidOne] =
        some (vcs', vfrs') →
      vcs'.length = [wRejectCam].length + [((1 : ℚ), (2 : ℚ))].length ∧
      vfrs'.length = [rigidOne].length + [((1 : ℚ), (2 : ℚ))].length ∧
      vcs'.take [wRejectCam].length = [wRejectCam] ∧
      vfrs'.take [rigidOne].length = [rigidOne]) ∧
    ([wRejectCam] = ([] : List Camera) → [rigidOne] = ([] : List Rigid3d) →
      Camera.ComputeVirtuals wTable wRefracCam [(1, 2)] [wRejectCam] [rigidOne] =
        some ([((1 : ℚ), (2 : ℚ))].map (fun p => (computedVirtualPair wTable wRefracCam p).1),
              [((1 : ℚ), (2 : ℚ))].map (fun p => (computedVirtualPair wTable wRefracCam p).2)))) :=
  ⟨by decide, computeVirtuals_appends wTable wRefracCam [(1, 2)] [wRejectCam] [rigidOne]
    (by decide)⟩

/-- C6: for a source camera whose intrinsic model has one or two focal-length
parameters, VirtualCamera(image point, camera point) builds a SIMPLE_PINHOLE
camera copying the source's width and height, whose single focal length is the
source camera's mean focal length and whose principal point is the image point
minus focal length times camera point, so that projecting the camera point
through the fitted pinhole camera reproduces the image point exactly. -/
theorem virtualCamera_fits (T : ModelTable) (cam : Camera) (m : CamModel) (spId : ℤ)
    (hm : T.models cam.model_id = some m)
    (hname : T.modelNameToId "SIMPLE_PINHOLE" = some spId)
    (hspm : T.models spId = some simplePinholeModel)
    (img cp : ℚ × ℚ) :
    (∀ i, m.focalIdxs = [i] →
      cam.params.getD i 0 = Camera.MeanFocalLength T cam ∧
      Camera.VirtualCamera T cam img cp =
        some (fittedVirtualCamera spId cam img cp (Camera.MeanFocalLength T cam)) ∧
      Camera.ImgFromCam T
        (fittedVirtualCamera spId cam img cp (Camera.MeanFocalLength T cam)) cp = img) ∧
    (∀ i j, m.focalIdxs = [i, j] →
      (cam.params.getD i 0 + cam.params.getD j 0) / 2 = Camera.MeanFocalLength T cam ∧
      Camera.VirtualCamera T cam img cp =
        some (fittedVirtualCamera spId cam img cp (Camera.MeanFocalLength T cam)) ∧
      Camera.ImgFromCam T
        (fittedVirtualCamera spId cam img cp (Camera.MeanFocalLength T cam)) cp = img) := by
  constructor
  · intro i hfi
    have hmean : cam.params.getD i 0 = Camera.MeanFocalLength T cam := by
      simp [Camera.MeanFocalLength, Camera.FocalLengthIdxs, hm, hfi]
    refine ⟨hmean, ?_, ?_⟩
    · rw [← hmean]
      simp [Camera.VirtualCamera, Camera.SetModelIdFromName, Camera.SetModelId, hname, hspm,
        Camera.FocalLengthIdxs, hm, hfi, Camera.SetParams, verifyParamsWith, simplePinholeModel,
        resizeFill, fittedVirtualCamera]
    · rw [← hmean]
      cases img with
      | mk ix iy =>
        cases cp with
        | mk cx cy =>
          simp [Camera.ImgFromCam, fittedVirtualCamera, hspm, simplePinholeModel]
  · intro i j hfi
    have hmean :
        (cam.params.getD i 0 + cam.params.getD j 0) / 2 = Camera.MeanFocalLength T cam := by
      simp [Camera.MeanFocalLength, Camera.FocalLengthIdxs, hm, hfi]
    refine ⟨hmean, ?_, ?_⟩
    · rw [← hmean]
      simp [Camera.VirtualCamera, Camera.SetModelIdFromName, Camera.SetModelId, hname, hspm,
        Camera.FocalLengthIdxs, hm, hfi, Camera.SetParams, verifyParamsWith, simplePinholeModel,
        resizeFill, fittedVirtualCamera]
    · rw [← hmean]
      cases img with
      | mk ix iy =>
        cases cp with
        | mk cx cy =>
          simp [Camera.ImgFromCam, fittedVirtualCamera, hspm, simplePinholeModel]

/-- Concrete instantiation of the C6 theorem: the PINHOLE witness camera with
focal lengths 2 and 4 (mean 3), pixel (7, 9) and direction (2, 3). -/
theorem virtualCamera_fits_witness :
    wTable.models wRefracCam.model_id = some pinholeModel ∧
    (∀ i, pinholeModel.focalIdxs = [i] →
      wRefracCam.params.getD i 0 = Camera.MeanFocalLength wTable wRefracCam ∧
      Camera.VirtualCamera wTable wRefracCam (7, 9) (2, 3) =
        some (fittedVirtualCamera 0 wRefracCam (7, 9) (2, 3)
          (Camera.MeanFocalLength wTable wRefracCam)) ∧
      Camera.ImgFromCam wTable
        (fittedVirtualCamera 0 wRefracCam (7, 9) (2, 3)
          (Camera.MeanFocalLength wTable wRefracCam)) (2, 3) = (7, 9)) ∧
    (∀ i j, pinholeModel.focalIdxs = [i, j] →
      (wRefracCam.params.getD i 0 + wRefracCam.params.getD j 0) / 2 =
        Camera.MeanFocalLength wTable wRefracCam ∧
      Camera.VirtualCamera wTable wRefracCam (7, 9) (2, 3) =
        some (fittedVirtualCamera 0 wRefracCam (7, 9) (2, 3)
          (Camera.MeanFocalLength wTable wRefracCam)) ∧
      Camera.ImgFromCam wTable
        (fittedVirtualCamera 0 wRefracCam (7, 9) (2, 3)
          (Camera.MeanFocalLength wTable wRefracCam)) (2, 3) = (7, 9)) :=
  ⟨rfl, virtualCamera_fits wTable wRefracCam pinholeModel 0 rfl rfl rfl (7, 9) (2, 3)⟩

/-- Resizing to length n yields length n. -/
theorem resizeFill_length (l : List ℚ) (n : ℕ) : (resizeFill l n).length = n := by
  simp [resizeFill]
  omega

/-- SetModelId preserves the parameter-length invariant. -/
theorem setModelId_paramsLenInv (T : ModelTable) (i : ℤ) (cam cam' : Camera)
    (hinv : paramsLenInv T cam) (h : Camera.SetModelId T i cam = some cam') :
    paramsLenInv T cam' := by
  obtain ⟨hinvm, hinvr⟩ := hinv
  unfold Camera.SetModelId at h
  cases hm : T.models i with
  | none => rw [hm] at h; exact absurd h (by simp)
  | some m =>
    rw [hm] at h
    simp only [Option.some.injEq] at h
    subst h
    constructor
    · intro m' hm'
      simp only at hm'
      rw [hm] at hm'
      simp only [Option.some.injEq] at hm'
      subst hm'
      exact resizeFill_length cam.params _
    · intro rm hrm
      exact hinvr rm hrm

/-- SetRefracModelId preserves the parameter-length invariant. -/
theorem setRefracModelId_paramsLenInv (T : ModelTable) (i : ℤ) (cam cam' : Camera)
    (hinv : paramsLenInv T cam) (h : Camera.SetRefracModelId T i cam = some cam') :
    paramsLenInv T cam' := by
  obtain ⟨hinvm, hinvr⟩ := hinv
  unfold Camera.SetRefracModelId at h
  cases hm : T.refracModels i with
  | none => rw [hm] at h; exact absurd h (by simp)
  | some rm =>
    rw [hm] at h
    simp only [Option.some.injEq] at h
    subst h
    constructor
    · intro m' hm'
      exact hinvm m' hm'
    · intro rm' hrm'
      simp only at hrm'
      rw [hm] at hrm'
      simp only [Option.some.injEq] at hrm'
      subst hrm'
      exact resizeFill_length cam.refrac_params _

/-- Validator-guarded intrinsic parameter assignment preserves the
parameter-length invariant (under catalog sanity). -/
theorem setParams_paramsLenInv (T : ModelTable) (hT : saneTable T) (ps : List ℚ)
    (cam : Camera) (hinv : paramsLenInv T cam) :
    paramsLenInv T (Camera.SetParams T ps cam).2 := by
  obtain ⟨hTm, _⟩ := hT
  obtain ⟨hinvm, hinvr⟩ := hinv
  unfold Camera.SetParams
  cases hv : verifyParamsWith T cam.model_id ps with
  | false => simpa [hv] using ⟨hinvm, hinvr⟩
  | true =>
    simp only [hv, if_true]
    constructor
    · intro m' hm'
      simp only at hm' ⊢
      unfold verifyParamsWith at hv
      rw [hm'] at hv
      exact hTm cam.model_id m' hm' ps hv
    · intro rm hrm
      exact hinvr rm hrm

/-- Validator-guarded refraction parameter assignment preserves the
parameter-length invariant (under catalog sanity). -/
theorem setRefracParams_paramsLenInv (T : ModelTable) (hT : saneTable T) (ps : List ℚ)
    (cam : Camera) (hinv : paramsLenInv T cam) :
    paramsLenInv T (Camera.SetRefracParams T ps cam).2 := by
  obtain ⟨_, hTr⟩ := hT
  obtain ⟨hinvm, hinvr⟩ := hinv
  unfold Camera.SetRefracParams
  cases hv : verifyRefracParamsWith T cam.refrac_model_id ps with
  | false => simpa [hv] using ⟨hinvm, hinvr⟩
  | true =>
    simp only [hv, if_true]
    constructor
    · intro m' hm'
      exact hinvm m' hm'
    · intro rm hrm
      simp only at hrm ⊢
      unfold verifyRefracParamsWith at hv
      rw [hrm] at hv
      exact hTr cam.refrac_model_id rm hrm ps hv

/-- Rescale by factor preserves the parameter-length invariant: it only
rewrites parameter entries in place. -/
theorem rescaleFactor_paramsLenInv (T : ModelTable) (scale : ℚ) (cam cam' : Camera)
    (hinv : paramsLenInv T cam) (h : Camera.RescaleFactor T scale cam = some cam') :
    paramsLenInv T cam' := by
  obtain ⟨hinvm, hinvr⟩ := hinv
  unfold Camera.RescaleFactor at h
  split at h
  · exact absurd h (by simp)
  · split at h
    · exact absurd h (by simp)
    · split at h
      · split at h
        · simp only [Option.some.injEq] at h
          subst h
          exact ⟨fun m' hm' => by
              simpa [List.length_set] using hinvm m' hm',
            fun rm hrm => hinvr rm hrm⟩
        · simp only [Option.some.injEq] at h
          subst h
          exact ⟨fun m' hm' => by
              simpa [List.length_set] using hinvm m' hm',
            fun rm hrm => hinvr rm hrm⟩
        · exact absurd h (by simp)
      · exact absurd h (by simp)

/-- Rescale to a target size preserves the parameter-length invariant. -/
theorem rescaleSize_paramsLenInv (T : ModelTable) (nw nh : ℕ) (cam cam' : Camera)
    (hinv : paramsLenInv T cam) (h : Camera.RescaleSize T nw nh cam = some cam') :
    paramsLenInv T cam' := by
  obtain ⟨hinvm, hinvr⟩ := hinv
  unfold Camera.RescaleSize at h
  split at h
  · exact absurd h (by simp)
  · split at h
    · split at h
      · simp only [Option.some.injEq] at h
        subst h
        exact ⟨fun m' hm' => by
            simpa [List.length_set] using hinvm m' hm',
          fun rm hrm => hinvr rm hrm⟩
      · simp only [Option.some.injEq] at h
        subst h
        exact ⟨fun m' hm' => by
            simpa [List.length_set] using hinvm m' hm',
          fun rm hrm => hinvr rm hrm⟩
      · exact absurd h (by simp)
    · exact absurd h (by simp)

/-- Every single mutating operation preserves the parameter-length
invariant. -/
theorem applyOp_paramsLenInv (T : ModelTable) (hT : saneTable T) (op : CameraOp)
    (cam cam' : Camera) (hinv : paramsLenInv T cam) (h : applyOp T op cam = some cam') :
    paramsLenInv T cam' := by
  cases op with
  | selModelId i => exact setModelId_paramsLenInv T i cam cam' hinv h
  | selModelName n =>
    simp only [applyOp, Camera.SetModelIdFromName] at h
    cases hn : T.modelNameToId n with
    | none => rw [hn] at h; exact absurd h (by simp)
    | some i =>
      rw [hn] at h
      exact setModelId_paramsLenInv T i cam cam' hinv h
  | selRefracModelId i => exact setRefracModelId_paramsLenInv T i cam cam' hinv h
  | selRefracModelName n =>
    simp only [applyOp, Camera.SetRefracModelIdFromName] at h
    cases hn : T.refracNameToId n with
    | none => rw [hn] at h; exact absurd h (by simp)
    | some i =>
      rw [hn] at h
      exact setRefracModelId_paramsLenInv T i cam cam' hinv h
  | assignParams ps =>
    simp only [applyOp, Option.some.injEq] at h
    subst h
    exact setParams_paramsLenInv T hT ps cam hinv
  | assignRefracParams ps =>
    simp only [applyOp, Option.some.injEq] at h
    subst h
    exact setRefracParams_paramsLenInv T hT ps cam hinv
  | assignParamsFromString parse s =>
    simp only [applyOp, Option.some.injEq] at h
    subst h
    have : Camera.SetParamsFromString T parse s cam = Camera.SetParams T (parse s) cam := by
      unfold Camera.SetParamsFromString Camera.SetParams
      cases hv : verifyParamsWith T cam.model_id (parse s) <;> simp [hv]
    rw [this]
    exact setParams_paramsLenInv T hT (parse s) cam hinv
  | assignRefracParamsFromString parse s =>
    simp only [applyOp, Option.some.injEq] at h
    subst h
    have : Camera.SetRefracParamsFromString T parse s cam =
        Camera.SetRefracParams T (parse s) cam := by
      unfold Camera.SetRefracParamsFromString Camera.SetRefracParams
      cases hv : verifyRefracParamsWith T cam.refrac_model_id (parse s) <;> simp [hv]
    rw [this]
    exact setRefracParams_paramsLenInv T hT (parse s) cam hinv
  | rescaleFactor sc => exact rescaleFactor_paramsLenInv T sc cam cam' hinv h
  | rescaleSize nw nh => exact rescaleSize_paramsLenInv T nw nh cam cam' hinv h

/-- Sequential application of mutating operations preserves the
parameter-length invariant. -/
theorem applyOps_paramsLenInv (T : ModelTable) (hT : saneTable T) (ops : List CameraOp) :
    ∀ cam cam', paramsLenInv T cam → applyOps T ops cam = some cam' → paramsLenInv T cam' := by
  induction ops with
  | nil =>
    intro cam cam' hinv h
    simp only [applyOps, Option.some.injEq] at h
    subst h
    exact hinv
  | cons op rest ih =>
    intro cam cam' hinv h
    simp only [applyOps] at h
    cases hop : applyOp T op cam with
    | none => rw [hop] at h; exact absurd h (by simp)
    | some cmid =>
      rw [hop] at h
      exact ih cmid cam' (applyOp_paramsLenInv T hT op cam cmid hinv hop) h

/-- The witness catalog satisfies the sanity contract: every validator accepts
only vectors of the canonical length. -/
theorem saneTable_wTable : saneTable wTable := by
  constructor
  · intro i m hm ps hv
    by_cases h0 : i = 0
    · subst h0
      simp only [wTable, if_true] at hm
      simp only [Option.some.injEq] at hm
      subst hm
      simpa [simplePinholeModel] using hv
    · by_cases h1 : i = 1
      · subst h1
        simp only [wTable] at hm
        norm_num at hm
        subst hm
        simpa [pinholeModel] using hv
      · simp only [wTable, if_neg h0, if_neg h1] at hm
        exact absurd hm (by simp)
  · intro i rm hrm ps hv
    by_cases h7 : i = 7
    · subst h7
      simp only [wTable, if_true] at hrm
      simp only [Option.some.injEq] at hrm
      subst hrm
      simpa [flatportWitnessModel] using hv
    · by_cases h8 : i = 8
      · subst h8
        simp only [wTable] at hrm
        norm_num at hrm
        subst hrm
        simpa [rejectingRefracModel] using hv
      · simp only [wTable, if_neg h7, if_neg h8] at hrm
        exact absurd hrm (by simp)

/-- C5: under the catalog sanity contract, the parameter-length invariant —
each selected variant's parameter vector has the variant's canonical length —
is preserved by every sequence of the public mutating operations (model
selection by id or name for both model kinds, guarded parameter assignment
from vectors or text, both rescale overloads); moreover selecting a model
resizes the corresponding parameter vector to the selected variant's canonical
length using zero as the fill value for newly created entries (the retained
prefix of the previous vector is kept, as by a C++ resize), and selection by
name reduces to selection by the looked-up id. -/
theorem cameraConfig_invariant (T : ModelTable) (hT : saneTable T) :
    (∀ ops cam cam', paramsLenInv T cam → applyOps T ops cam = some cam' →
      paramsLenInv T cam') ∧
    (∀ i m cam cam', T.models i = some m → Camera.SetModelId T i cam = some cam' →
      cam'.model_id = i ∧
      cam'.params =
        cam.params.take m.numParams ++ List.replicate (m.numParams - cam.params.length) 0 ∧
      cam'.params.length = m.numParams) ∧
    (∀ i rm cam cam', T.refracModels i = some rm →
      Camera.SetRefracModelId T i cam = some cam' →
      cam'.refrac_model_id = i ∧
      cam'.refrac_params =
        cam.refrac_params.take rm.numParams ++
          List.replicate (rm.numParams - cam.refrac_params.length) 0 ∧
      cam'.refrac_params.length = rm.numParams) ∧
    (∀ name i cam, T.modelNameToId name = some i →
      Camera.SetModelIdFromName T name cam = Camera.SetModelId T i cam) ∧
    (∀ name i cam, T.refracNameToId name = some i →
      Camera.SetRefracModelIdFromName T name cam = Camera.SetRefracModelId T i cam) := by
  refine ⟨applyOps_paramsLenInv T hT, ?_, ?_, ?_, ?_⟩
  · intro i m cam cam' hm h
    unfold Camera.SetModelId at h
    rw [hm] at h
    simp only [Option.some.injEq] at h
    subst h
    exact ⟨rfl, rfl, resizeFill_length cam.params m.numParams⟩
  · intro i rm cam cam' hrm h
    unfold Camera.SetRefracModelId at h
    rw [hrm] at h
    simp only [Option.some.injEq] at h
    subst h
    exact ⟨rfl, rfl, resizeFill_length cam.refrac_params rm.numParams⟩
  · intro name i cam hn
    unfold Camera.SetModelIdFromName
    rw [hn]
  · intro name i cam hn
    unfold Camera.SetRefracModelIdFromName
    rw [hn]

/-- Concrete instantiation of the C5 theorem at the witness catalog, with a
sample run of the operations checked by evaluation: selecting PINHOLE on a
fresh camera yields four zero parameters, reselecting SIMPLE_PINHOLE keeps the
prefix of the previous vector at the new canonical length three. -/
theorem cameraConfig_invariant_witness :
    saneTable wTable ∧
    ((∀ ops cam cam', paramsLenInv wTable cam → applyOps wTable ops cam = some cam' →
      paramsLenInv wTable cam') ∧
    (∀ i m cam cam', wTable.models i = some m → Camera.SetModelId wTable i cam = some cam' →
      cam'.model_id = i ∧
      cam'.params =
        cam.params.take m.numParams ++ List.replicate (m.numParams - cam.params.length) 0 ∧
      cam'.params.length = m.numParams) ∧
    (∀ i rm cam cam', wTable.refracModels i = some rm →
      Camera.SetRefracModelId wTable i cam = some cam' →
      cam'.refrac_model_id = i ∧
      cam'.refrac_params =
        cam.refrac_params.take rm.numParams ++
          List.replicate (rm.numParams - cam.refrac_params.length) 0 ∧
      cam'.refrac_params.length = rm.numParams) ∧
    (∀ name i cam, wTable.modelNameToId name = some i →
      Camera.SetModelIdFromName wTable name cam = Camera.SetModelId wTable i cam) ∧
    (∀ name i cam, wTable.refracNameToId name = some i →
      Camera.SetRefracModelIdFromName wTable name cam =
        Camera.SetRefracModelId wTable i cam)) ∧
    applyOps wTable
      [CameraOp.selModelName "PINHOLE", CameraOp.assignParams [2, 2, 4, 3],
       CameraOp.selModelId 0] ({} : Camera) =
      some { model_id := 0, params := [2, 2, 4] } :=
  ⟨saneTable_wTable, cameraConfig_invariant wTable saneTable_wTable, by decide⟩


/-- C9: both Rescale overloads change only the width, the height, the
principal point and the focal length(s) — the principal point scaled by the
per-axis size factors and the focal length(s) by those factors or their mean —
and leave the intrinsic model selection, the refraction model selection and
the entire refraction parameter vector (interface normal, distance, thickness,
refractive indices) unchanged; rescaling by a factor requires it positive and
rounds the new sizes. -/
theorem rescale_effects (T : ModelTable) (cam : Camera) (m : CamModel) (i j : ℕ)
    (hm : T.models cam.model_id = some m) (hpp : m.ppIdxs = [i, j]) (hij : i ≠ j)
    (hi : i < cam.params.length) (hj : j < cam.params.length) :
    (∀ fi, m.focalIdxs = [fi] → fi ≠ i → fi ≠ j → fi < cam.params.length →
      (∀ scale : ℚ, 0 < scale →
        (Camera.RescaleFactor T scale cam).isSome = true ∧
        ∀ cam', Camera.RescaleFactor T scale cam = some cam' →
          rescaleEffect cam cam' i j [fi]
            (((round (scale * (cam.width : ℚ)) : ℤ) : ℚ) / (cam.width : ℚ))
            (((round (scale * (cam.height : ℚ)) : ℤ) : ℚ) / (cam.height : ℚ))
            (round (scale * (cam.width : ℚ))).toNat
            (round (scale * (cam.height : ℚ))).toNat ∧
          cam'.params.getD fi 0 =
            (((round (scale * (cam.width : ℚ)) : ℤ) : ℚ) / (cam.width : ℚ) +
              ((round (scale * (cam.height : ℚ)) : ℤ) : ℚ) / (cam.height : ℚ)) / 2 *
              cam.params.getD fi 0) ∧
      (∀ nw nh : ℕ,
        (Camera.RescaleSize T nw nh cam).isSome = true ∧
        ∀ cam', Camera.RescaleSize T nw nh cam = some cam' →
          rescaleEffect cam cam' i j [fi]
            ((nw : ℚ) / (cam.width : ℚ)) ((nh : ℚ) / (cam.height : ℚ)) nw nh ∧
          cam'.params.getD fi 0 =
            ((nw : ℚ) / (cam.width : ℚ) + (nh : ℚ) / (cam.height : ℚ)) / 2 *
              cam.params.getD fi 0)) ∧
    (∀ fa fb, m.focalIdxs = [fa, fb] → fa ≠ i → fa ≠ j → fb ≠ i → fb ≠ j → fa ≠ fb →
      fa < cam.params.length → fb < cam.params.length →
      (∀ scale : ℚ, 0 < scale →
        (Camera.RescaleFactor T scale cam).isSome = true ∧
        ∀ cam', Camera.RescaleFactor T scale cam = some cam' →
          rescaleEffect cam cam' i j [fa, fb]
            (((round (scale * (cam.width : ℚ)) : ℤ) : ℚ) / (cam.width : ℚ))
            (((round (scale * (cam.height : ℚ)) : ℤ) : ℚ) / (cam.height : ℚ))
            (round (scale * (cam.width : ℚ))).toNat
            (round (scale * (cam.height : ℚ))).toNat ∧
          cam'.params.getD fa 0 =
            ((round (scale * (cam.width : ℚ)) : ℤ) : ℚ) / (cam.width : ℚ) *
              cam.params.getD fa 0 ∧
          cam'.params.getD fb 0 =
            ((round (scale * (cam.height : ℚ)) : ℤ) : ℚ) / (cam.height : ℚ) *
              cam.params.getD fb 0) ∧
      (∀ nw nh : ℕ,
        (Camera.RescaleSize T nw nh cam).isSome = true ∧
        ∀ cam', Camera.RescaleSize T nw nh cam = some cam' →
          rescaleEffect cam cam' i j [fa, fb]
            ((nw : ℚ) / (cam.width : ℚ)) ((nh : ℚ) / (cam.height : ℚ)) nw nh ∧
          cam'.params.getD fa 0 = (nw : ℚ) / (cam.width : ℚ) * cam.params.getD fa 0 ∧
          cam'.params.getD fb 0 = (nh : ℚ) / (cam.height : ℚ) * cam.params.getD fb 0)) := by
  constructor
  · intro fi hfi hfii hfij hfilen
    constructor
    · intro scale hs
      have hns : ¬ scale ≤ 0 := not_le.mpr hs
      constructor
      · simp [Camera.RescaleFactor, hm, hpp, hfi, hns]
      · intro cam' h
        simp only [Camera.RescaleFactor, hm, hpp, hfi, if_neg hns, Option.some.injEq] at h
        subst h
        refine ⟨⟨rfl, rfl, rfl, rfl, rfl, rfl, by simp [List.length_set], ?_, ?_, ?_⟩, ?_⟩
        · rw [getD_set_ne _ fi i _ _ hfii, getD_set_ne _ j i _ _ (Ne.symm hij),
            getD_set_self _ i _ _ hi]
        · rw [getD_set_ne _ fi j _ _ hfij,
            getD_set_self _ j _ _ (by simpa using hj), getD_set_ne _ i j _ _ hij]
        · intro k hki hkj hkf
          simp only [List.mem_singleton] at hkf
          rw [getD_set_ne _ fi k _ _ (Ne.symm hkf), getD_set_ne _ j k _ _ (Ne.symm hkj),
            getD_set_ne _ i k _ _ (Ne.symm hki)]
        · rw [getD_set_self _ fi _ _ (by simpa using hfilen),
            getD_set_ne _ j fi _ _ (Ne.symm hfij), getD_set_ne _ i fi _ _ (Ne.symm hfii)]
    · intro nw nh
      constructor
      · simp [Camera.RescaleSize, hm, hpp, hfi]
      · intro cam' h
        simp only [Camera.RescaleSize, hm, hpp, hfi, Option.some.injEq] at h
        subst h
        refine ⟨⟨rfl, rfl, rfl, rfl, rfl, rfl, by simp [List.length_set], ?_, ?_, ?_⟩, ?_⟩
        · rw [getD_set_ne _ fi i _ _ hfii, getD_set_ne _ j i _ _ (Ne.symm hij),
            getD_set_self _ i _ _ hi]
        · rw [getD_set_ne _ fi j _ _ hfij,
            getD_set_self _ j _ _ (by simpa using hj), getD_set_ne _ i j _ _ hij]
        · intro k hki hkj hkf
          simp only [List.mem_singleton] at hkf
          rw [getD_set_ne _ fi k _ _ (Ne.symm hkf), getD_set_ne _ j k _ _ (Ne.symm hkj),
            getD_set_ne _ i k _ _ (Ne.symm hki)]
        · rw [getD_set_self _ fi _ _ (by simpa using hfilen),
            getD_set_ne _ j fi _ _ (Ne.symm hfij), getD_set_ne _ i fi _ _ (Ne.symm hfii)]
  · intro fa fb hfi hfai hfaj hfbi hfbj hfab hfalen hfblen
    constructor
    · intro scale hs
      have hns : ¬ scale ≤ 0 := not_le.mpr hs
      constructor
      · simp [Camera.RescaleFactor, hm, hpp, hfi, hns]
      · intro cam' h
        simp only [Camera.RescaleFactor, hm, hpp, hfi, if_neg hns, Option.some.injEq] at h
        subst h
        refine ⟨⟨rfl, rfl, rfl, rfl, rfl, rfl, by simp [List.length_set], ?_, ?_, ?_⟩, ?_, ?_⟩
        · rw [getD_set_ne _ fb i _ _ hfbi, getD_set_ne _ fa i _ _ hfai,
            getD_set_ne _ j i _ _ (Ne.symm hij), getD_set_self _ i _ _ hi]
        · rw [getD_set_ne _ fb j _ _ hfbj, getD_set_ne _ fa j _ _ hfaj,
            getD_set_self _ j _ _ (by simpa using hj), getD_set_ne _ i j _ _ hij]
        · intro k hki hkj hkf
          simp only [List.mem_cons, List.mem_singleton, not_or] at hkf
          rw [getD_set_ne _ fb k _ _ (Ne.symm hkf.2.1), getD_set_ne _ fa k _ _ (Ne.symm hkf.1),
            getD_set_ne _ j k _ _ (Ne.symm hkj), getD_set_ne _ i k _ _ (Ne.symm hki)]
        · rw [getD_set_ne _ fb fa _ _ (Ne.symm hfab),
            getD_set_self _ fa _ _ (by simpa using hfalen),
            getD_set_ne _ j fa _ _ (Ne.symm hfaj), getD_set_ne _ i fa _ _ (Ne.symm hfai)]
        · rw [getD_set_self _ fb _ _ (by simpa using hfblen),
            getD_set_ne _ fa fb _ _ hfab,
            getD_set_ne _ j fb _ _ (Ne.symm hfbj), getD_set_ne _ i fb _ _ (Ne.symm hfbi)]
    · intro nw nh
      constructor
      · simp [Camera.RescaleSize, hm, hpp, hfi]
      · intro cam' h
        simp only [Camera.RescaleSize, hm, hpp, hfi, Option.some.injEq] at h
        subst h
        refine ⟨⟨rfl, rfl, rfl, rfl, rfl, rfl, by simp [List.length_set], ?_, ?_, ?_⟩, ?_, ?_⟩
        · rw [getD_set_ne _ fb i _ _ hfbi, getD_set_ne _ fa i _ _ hfai,
            getD_set_ne _ j i _ _ (Ne.symm hij), getD_set_self _ i _ _ hi]
        · rw [getD_set_ne _ fb j _ _ hfbj, getD_set_ne _ fa j _ _ hfaj,
            getD_set_self _ j _ _ (by simpa using hj), getD_set_ne _ i j _ _ hij]
        · intro k hki hkj hkf
          simp only [List.mem_cons, List.mem_singleton, not_or] at hkf
          rw [getD_set_ne _ fb k _ _ (Ne.symm hkf.2.1), getD_set_ne _ fa k _ _ (Ne.symm hkf.1),
            getD_set_ne _ j k _ _ (Ne.symm hkj), getD_set_ne _ i k _ _ (Ne.symm hki)]
        · rw [getD_set_ne _ fb fa _ _ (Ne.symm hfab),
            getD_set_self _ fa _ _ (by simpa using hfalen),
            getD_set_ne _ j fa _ _ (Ne.symm hfaj), getD_set_ne _ i fa _ _ (Ne.symm hfai)]
        · rw [getD_set_self _ fb _ _ (by simpa using hfblen),
            getD_set_ne _ fa fb _ _ hfab,
            getD_set_ne _ j fb _ _ (Ne.symm hfbj), getD_set_ne _ i fb _ _ (Ne.symm hfbi)]

/-- Concrete instantiation of the C9 theorem: the PINHOLE witness camera,
rescaled by one half; the resulting camera is checked by evaluation, and the
frame condition is obtained from the theorem. -/
theorem rescale_effects_witness :
    Camera.RescaleFactor wTable (1/2) wRefracCam =
      some { wRefracCam with width := 5, height := 5, params := [1, 2, 5/2, 5/2] } ∧
    ∀ cam', Camera.RescaleFactor wTable (1/2) wRefracCam = some cam' →
      rescaleEffect wRefracCam cam' 2 3 [0, 1]
        (((round ((1/2 : ℚ) * (wRefracCam.width : ℚ)) : ℤ) : ℚ) / (wRefracCam.width : ℚ))
        (((round ((1/2 : ℚ) * (wRefracCam.height : ℚ)) : ℤ) : ℚ) / (wRefracCam.height : ℚ))
        (round ((1/2 : ℚ) * (wRefracCam.width : ℚ))).toNat
        (round ((1/2 : ℚ) * (wRefracCam.height : ℚ))).toNat :=
  ⟨by with_unfolding_all decide, fun cam' h =>
    ((((rescale_effects wTable wRefracCam pinholeModel 2 3 rfl rfl (by decide) (by decide)
      (by decide)).2 0 1 rfl (by decide) (by decide) (by decide) (by decide) (by decide)
      (by decide) (by decide)).1 (1/2) (by norm_num)).2 cam' h).1⟩

/-- The rotation taking a to UnitZ in the generic (non-antiparallel) branch of
FromTwoVectors: conjugation by the quaternion (1 + z, y, -x, 0) maps the unit
vector (x, y, z) to UnitZ. -/
theorem qrot_generic (ax ay az : ℚ) (ha : ax * ax + ay * ay + az * az = 1)
    (hz1 : (1 : ℚ) + az ≠ 0) :
    qrot ⟨1 + az, ay, -ax, 0⟩ ⟨ax, ay, az⟩ = unitZ := by
  have hD : (1 + az) * (1 + az) + ay * ay + -ax * -ax + 0 * 0 ≠ 0 := by
    have h2 : (1 + az) * (1 + az) + ay * ay + -ax * -ax + 0 * 0 = 2 * (1 + az) := by
      linear_combination ha
    rw [h2]
    exact mul_ne_zero two_ne_zero hz1
  simp only [qrot, qmul, qconj, qnormSq, unitZ]
  rw [Vec3.mk.injEq]
  refine ⟨?_, ?_, ?_⟩
  · field_simp
    refine Or.inl ?_
    linear_combination (-ax) * ha
  · field_simp
    refine Or.inl ?_
    linear_combination (-ay) * ha
  · rw [div_eq_one_iff_eq hD]
    linear_combination (az + 1) * ha

/-- FromTwoVectors applied to a unit vector and UnitZ yields a quaternion
whose rotation action maps the vector exactly onto UnitZ, in the antiparallel
special case included. -/
theorem fromTwoVectors_unit_aligns (a : Vec3) (ha : sqNorm3 a = 1) :
    qrot (fromTwoVectors a unitZ) a = unitZ := by
  obtain ⟨ax, ay, az⟩ := a
  simp only [sqNorm3] at ha
  by_cases hz1 : (1 : ℚ) + az = 0
  · have haz : az = -1 := by linarith
    subst haz
    have hx2 : ax * ax + ay * ay = 0 := by linear_combination ha
    have h1 : ax * ax = 0 :=
      le_antisymm (by linarith [mul_self_nonneg ay]) (mul_self_nonneg ax)
    have h2 : ay * ay = 0 :=
      le_antisymm (by linarith [mul_self_nonneg ax]) (mul_self_nonneg ay)
    have hax : ax = 0 := mul_self_eq_zero.mp h1
    have hay : ay = 0 := mul_self_eq_zero.mp h2
    subst hax
    subst hay
    with_unfolding_all decide
  · have hred : fromTwoVectors ⟨ax, ay, az⟩ unitZ = ⟨1 + az, ay, -ax, 0⟩ := by
      simp [fromTwoVectors, dot3, unitZ, cross3, hz1]
    rw [hred]
    exact qrot_generic ax ay az ha hz1

/-- C7: for every refractive camera configuration with a unit refraction axis,
VirtualFromRealRotation is a rotation that maps the refraction axis exactly
onto the canonical axis UnitZ — so the rotated axis has dot product 1 with the
canonical axis — regardless of the configured interface-normal direction, and
it is a pure function of the camera's refraction configuration alone,
independent of any pixel: any camera with the same refraction model selection
and parameters yields the same rotation. -/
theorem virtualFromRealRotation_aligns (T : ModelTable) (cam : Camera)
    (hunit : sqNorm3 (Camera.RefractionAxis T cam) = 1) :
    qrot (Camera.VirtualFromRealRotation T cam) (Camera.RefractionAxis T cam) = unitZ ∧
    dot3 (qrot (Camera.VirtualFromRealRotation T cam) (Camera.RefractionAxis T cam)) unitZ
      = 1 ∧
    (∀ cam2 : Camera, cam2.refrac_model_id = cam.refrac_model_id →
      cam2.refrac_params = cam.refrac_params →
      Camera.VirtualFromRealRotation T cam2 = Camera.VirtualFromRealRotation T cam) := by
  have h1 := fromTwoVectors_unit_aligns (Camera.RefractionAxis T cam) hunit
  have h0 : Camera.VirtualFromRealRotation T cam =
      fromTwoVectors (Camera.RefractionAxis T cam) unitZ := rfl
  refine ⟨by rw [h0]; exact h1, ?_, ?_⟩
  · rw [h0, h1]
    norm_num [dot3, unitZ]
  · intro cam2 h2 h3
    unfold Camera.VirtualFromRealRotation Camera.RefractionAxis
    rw [h2, h3]

/-- Concrete instantiation of the C7 theorem: the witness camera with the
tilted unit interface normal (3/5, 0, 4/5). -/
theorem virtualFromRealRotation_aligns_witness :
    sqNorm3 (Camera.RefractionAxis wTable wTiltCam) = 1 ∧
    (qrot (Camera.VirtualFromRealRotation wTable wTiltCam)
        (Camera.RefractionAxis wTable wTiltCam) = unitZ ∧
     dot3 (qrot (Camera.VirtualFromRealRotation wTable wTiltCam)
        (Camera.RefractionAxis wTable wTiltCam)) unitZ = 1 ∧
     (∀ cam2 : Camera, cam2.refrac_model_id = wTiltCam.refrac_model_id →
       cam2.refrac_params = wTiltCam.refrac_params →
       Camera.VirtualFromRealRotation wTable cam2 =
         Camera.VirtualFromRealRotation wTable wTiltCam)) :=
  ⟨by with_unfolding_all decide,
   virtualFromRealRotation_aligns wTable wTiltCam (by with_unfolding_all decide)⟩

set_option maxRecDepth 8000 in
/-- C1 counterexample: in the positional-error harness the refractive
estimate's translation IS normalized away before the positional error.  With
identity rotations, ground-truth translation (2, 0, 0) and estimated
translation (3, 0, 0), the code computes a positional error of 0, while the
Euclidean distance between the recovered and ground-truth camera centers is 1
in physical units (1000 in the millimeter scaling the code applies) — so the
claimed equality of the reported positional error with the physical center
distance fails at this input. -/
theorem evalRefrac_position_counterexample :
    (EvalRefracPoseError (fun _ => 0) ⟨⟨1, 0, 0, 0⟩, ⟨2, 0, 0⟩⟩
      ⟨⟨1, 0, 0, 0⟩, ⟨3, 0, 0⟩⟩).2 = 0 ∧
    sqrtQ (sqNorm3 (vsub (poseCenter ⟨⟨1, 0, 0, 0⟩, ⟨2, 0, 0⟩⟩)
      (poseCenter ⟨⟨1, 0, 0, 0⟩, ⟨3, 0, 0⟩⟩))) = 1 ∧
    sqrtQ (sqNorm3 (vsub (poseCenter ⟨⟨1, 0, 0, 0⟩, ⟨2, 0, 0⟩⟩)
      (poseCenter ⟨⟨1, 0, 0, 0⟩, ⟨3, 0, 0⟩⟩))) * 1000 = 1000 ∧
    (0 : ℚ) ≠ 1 ∧ (0 : ℚ) ≠ 1000 := by
  refine ⟨?_, ?_, ?_, by norm_num, by norm_num⟩ <;> with_unfolding_all decide

/-- C1 amended: the rotation error is the angle in degrees (through the
external angle oracle) of the relative rotation between ground truth and
estimate, unaffected by the translation normalizations; but in the
positional-error harness the refractive estimate's translation is normalized
to unit length (and the ground truth's likewise inside PoseError), so the
reported positional error is 1000 times the distance between the camera
centers of the translation-normalized poses — agreeing with the physical
center distance only when both translations already have unit norm; the scale
error, computed only in the angular-error harness variant, is the absolute
difference of the baseline norms of the un-normalized poses, and zero in the
non-refractive mode. -/
theorem evalRefrac_error_semantics (angleDeg : Quat → ℚ) (acosDeg : ℚ → ℚ)
    (gt est : Rigid3d) :
    (EvalRefracPoseError angleDeg gt est).1 =
      angleDeg (qmul gt.rotation (qinv est.rotation)) ∧
    (EvalRefracPoseError angleDeg gt est).2 =
      sqrtQ (sqNorm3 (vsub
        (poseCenter { gt with translation := vnormalize gt.translation })
        (poseCenter { est with translation := vnormalize est.translation }))) * 1000 ∧
    (sqNorm3 gt.translation = 1 → sqNorm3 est.translation = 1 →
      (EvalRefracPoseError angleDeg gt est).2 =
        sqrtQ (sqNorm3 (vsub (poseCenter gt) (poseCenter est))) * 1000) ∧
    (RelativePoseError angleDeg acosDeg gt est true).2.2 =
      |sqrtQ (sqNorm3 (poseCenter gt)) - sqrtQ (sqNorm3 (poseCenter est))| ∧
    (RelativePoseError angleDeg acosDeg gt est false).2.2 = 0 := by
  have hnv : ∀ v : Vec3, sqNorm3 v = 1 → vnormalize v = v := by
    intro v hv
    have hone : sqrtQ 1 = 1 := by with_unfolding_all decide
    obtain ⟨vx, vy, vz⟩ := v
    simp only [vnormalize, hv, hone, div_one]
  refine ⟨rfl, rfl, ?_, rfl, rfl⟩
  intro h1 h2
  have egt : ({ gt with translation := vnormalize gt.translation } : Rigid3d) = gt := by
    obtain ⟨r, t⟩ := gt
    simp only at h1
    simp only [hnv t h1]
  have eest : ({ est with translation := vnormalize est.translation } : Rigid3d) = est := by
    obtain ⟨r, t⟩ := est
    simp only at h2
    simp only [hnv t h2]
  have hmain : (EvalRefracPoseError angleDeg gt est).2 =
      sqrtQ (sqNorm3 (vsub
        (poseCenter { gt with translation := vnormalize gt.translation })
        (poseCenter { est with translation := vnormalize est.translation }))) * 1000 := rfl
  rw [hmain, egt, eest]

set_option maxRecDepth 8000 in
/-- Concrete instantiation of the C1 amended theorem at unit-norm
translations, where the positional error is exactly the physical center
distance times 1000. -/
theorem evalRefrac_error_semantics_witness :
    sqNorm3 ((⟨⟨1, 0, 0, 0⟩, ⟨3/5, 4/5, 0⟩⟩ : Rigid3d)).translation = 1 ∧
    sqNorm3 ((⟨⟨1, 0, 0, 0⟩, ⟨-3/5, 4/5, 0⟩⟩ : Rigid3d)).translation = 1 ∧
    (EvalRefracPoseError (fun _ => 0) ⟨⟨1, 0, 0, 0⟩, ⟨3/5, 4/5, 0⟩⟩
        ⟨⟨1, 0, 0, 0⟩, ⟨-3/5, 4/5, 0⟩⟩).2 =
      sqrtQ (sqNorm3 (vsub (poseCenter ⟨⟨1, 0, 0, 0⟩, ⟨3/5, 4/5, 0⟩⟩)
        (poseCenter ⟨⟨1, 0, 0, 0⟩, ⟨-3/5, 4/5, 0⟩⟩))) * 1000 :=
  ⟨by with_unfolding_all decide, by with_unfolding_all decide,
   (evalRefrac_error_semantics (fun _ => 0) (fun _ => 0) ⟨⟨1, 0, 0, 0⟩, ⟨3/5, 4/5, 0⟩⟩
     ⟨⟨1, 0, 0, 0⟩, ⟨-3/5, 4/5, 0⟩⟩).2.2.1 (by with_unfolding_all decide)
     (by with_unfolding_all decide)⟩

/-- A loop iteration on a rejected candidate only advances the draw index by
the three consumed draws. -/
theorem genIter_reject (T : ModelTable) (cam : Camera) (gt : Rigid3d)
    (numPoints numInliers : ℕ) (noise : ℚ) (rng : RngOracle) (s : GenState)
    (hcnt : s.cnt < numPoints) (hok : candOk T cam gt rng s.rix = false) :
    genIter T cam gt numPoints numInliers noise rng s = { s with rix := s.rix + 3 } := by
  have hns := not_le.mpr hcnt
  simp only [candOk] at hok
  cases hp : candProj2r T cam gt rng s.rix with
  | none => simp only [genIter, if_neg hns, hp]
  | some p =>
    rw [hp] at hok
    simp only [Bool.not_eq_false', Bool.or_eq_true, decide_eq_true_eq] at hok
    have hcond : p.1 < 0 ∨ p.1 > (cam.width : ℚ) ∨ p.2 < 0 ∨ p.2 > (cam.height : ℚ) := by
      tauto
    simp only [genIter, if_neg hns, hp, if_pos hcond]

/-- A loop iteration on an accepted candidate pushes the four stored pixel
pairs of the candidate, bumps the count, and advances the draw index by the
consumed draws (three, plus eight Gaussian draws unless it is a noise-free
inlier). -/
theorem genIter_accept (T : ModelTable) (cam : Camera) (gt : Rigid3d)
    (numPoints numInliers : ℕ) (noise : ℚ) (rng : RngOracle) (s : GenState)
    (hcnt : s.cnt < numPoints) (hok : candOk T cam gt rng s.rix = true) :
    genIter T cam gt numPoints numInliers noise rng s =
      { s with rix := s.rix + (if s.cnt < numInliers ∧ ¬(0 < noise) then 3 else 11)
               cnt := s.cnt + 1
               p1 := s.p1 ++ [(storedQuad T cam gt rng numInliers noise s.rix s.cnt).1]
               p2 := s.p2 ++ [(storedQuad T cam gt rng numInliers noise s.rix s.cnt).2.1]
               p1r := s.p1r ++ [(storedQuad T cam gt rng numInliers noise s.rix s.cnt).2.2.1]
               p2r := s.p2r ++
                 [(storedQuad T cam gt rng numInliers noise s.rix s.cnt).2.2.2] } := by
  have hns := not_le.mpr hcnt
  simp only [candOk] at hok
  cases hp : candProj2r T cam gt rng s.rix with
  | none => rw [hp] at hok; exact absurd hok (by simp)
  | some p =>
    rw [hp] at hok
    simp only [Bool.not_eq_true', Bool.or_eq_false_iff, decide_eq_false_iff_not] at hok
    have hcond : ¬ (p.1 < 0 ∨ p.1 > (cam.width : ℚ) ∨ p.2 < 0 ∨ p.2 > (cam.height : ℚ)) := by
      tauto
    simp only [genIter, if_neg hns, hp, if_neg hcond]

/-- One loop iteration either leaves the state count unchanged or, strictly
below the target, increments it by one. -/
theorem genIter_cnt (T : ModelTable) (cam : Camera) (gt : Rigid3d)
    (numPoints numInliers : ℕ) (noise : ℚ) (rng : RngOracle) (s : GenState) :
    (genIter T cam gt numPoints numInliers noise rng s).cnt = s.cnt ∨
    (s.cnt < numPoints ∧
      (genIter T cam gt numPoints numInliers noise rng s).cnt = s.cnt + 1) := by
  by_cases hstop : numPoints ≤ s.cnt
  · left
    unfold genIter
    rw [if_pos hstop]
  · have hcnt := not_le.mp hstop
    by_cases hok : candOk T cam gt rng s.rix = true
    · right
      rw [genIter_accept T cam gt numPoints numInliers noise rng s hcnt hok]
      exact ⟨hcnt, rfl⟩
    · left
      rw [genIter_reject T cam gt numPoints numInliers noise rng s hcnt
        (Bool.not_eq_true _ ▸ hok)]

/-- With only rejected candidates, the loop keeps a zero accepted count and
consumes three draws per iteration, whatever the fuel. -/
theorem genLoop_all_rejected (T : ModelTable) (cam : Camera) (gt : Rigid3d)
    (numPoints numInliers : ℕ) (noise : ℚ) (rng : RngOracle)
    (hN : 0 < numPoints) (hrej : ∀ j, candOk T cam gt rng j = false) :
    ∀ (fuel : ℕ) (s : GenState), s.cnt = 0 →
      (genLoop T cam gt numPoints numInliers noise rng fuel s).cnt = 0 ∧
      (genLoop T cam gt numPoints numInliers noise rng fuel s).rix = s.rix + 3 * fuel := by
  intro fuel
  induction fuel with
  | zero => intro s h; simp [genLoop, h]
  | succ n ih =>
    intro s h
    have hcnt : s.cnt < numPoints := by omega
    have hstep := genIter_reject T cam gt numPoints numInliers noise rng s hcnt (hrej s.rix)
    simp only [genLoop, hstep]
    have hres := ih { s with rix := s.rix + 3 } h
    refine ⟨hres.1, ?_⟩
    have hrix : ({ s with rix := s.rix + 3 } : GenState).rix = s.rix + 3 := rfl
    rw [hres.2, hrix]
    omega

/-- The loop never accepts beyond the target count. -/
theorem genLoop_cnt_le (T : ModelTable) (cam : Camera) (gt : Rigid3d)
    (numPoints numInliers : ℕ) (noise : ℚ) (rng : RngOracle) :
    ∀ (fuel : ℕ) (s : GenState), s.cnt ≤ numPoints →
      (genLoop T cam gt numPoints numInliers noise rng fuel s).cnt ≤ numPoints := by
  intro fuel
  induction fuel with
  | zero => intro s h; simpa [genLoop] using h
  | succ n ih =>
    intro s h
    simp only [genLoop]
    apply ih
    rcases genIter_cnt T cam gt numPoints numInliers noise rng s with h1 | ⟨h1, h2⟩
    · rw [h1]; exact h
    · rw [h2]; omega

/-- C3: the rejection-sampling loop has no maximum-attempts guard.  When no
candidate ever passes the finiteness and image-bounds tests, the loop accepts
nothing: for every amount of fuel — the bounded stand-in for the unbounded
source loop — the accepted count stays zero and the exit condition is never
reached, while three draws keep being consumed per iteration, so the source
loop does not terminate on such a configuration; and the accepted count can
never pass the target, so a normally exited loop has accepted exactly the
requested number of samples. -/
theorem genLoop_no_guard (T : ModelTable) (cam : Camera) (gt : Rigid3d)
    (numPoints numInliers : ℕ) (noise : ℚ) (rng : RngOracle)
    (hN : 0 < numPoints) (hrej : ∀ j, candOk T cam gt rng j = false) :
    (∀ fuel : ℕ,
      (genLoop T cam gt numPoints numInliers noise rng fuel genInit).cnt = 0 ∧
      (genLoop T cam gt numPoints numInliers noise rng fuel genInit).rix = 3 * fuel ∧
      ¬ (numPoints ≤ (genLoop T cam gt numPoints numInliers noise rng fuel genInit).cnt)) ∧
    (∀ (fuel : ℕ) (s : GenState), s.cnt ≤ numPoints →
      (genLoop T cam gt numPoints numInliers noise rng fuel s).cnt ≤ numPoints) := by
  refine ⟨?_, genLoop_cnt_le T cam gt numPoints numInliers noise rng⟩
  intro fuel
  have h := genLoop_all_rejected T cam gt numPoints numInliers noise rng hN hrej fuel
    genInit rfl
  refine ⟨h.1, ?_, ?_⟩
  · rw [h.2]
    simp [genInit]
  · rw [h.1]
    omega

/-- Concrete instantiation of the C3 theorem: the always-rejecting refraction
variant, one requested point, four loop iterations. -/
theorem genLoop_no_guard_witness :
    0 < 1 ∧
    (((genLoop wTable wRejectCam rigidOne 1 1 0 wRng 4 genInit).cnt = 0 ∧
      (genLoop wTable wRejectCam rigidOne 1 1 0 wRng 4 genInit).rix = 3 * 4 ∧
      ¬ (1 ≤ (genLoop wTable wRejectCam rigidOne 1 1 0 wRng 4 genInit).cnt)) ∧
     (∀ (fuel : ℕ) (s : GenState), s.cnt ≤ 1 →
       (genLoop wTable wRejectCam rigidOne 1 1 0 wRng fuel s).cnt ≤ 1)) :=
  ⟨by decide,
   ⟨(genLoop_no_guard wTable wRejectCam rigidOne 1 1 0 wRng (by decide) (fun _ => rfl)).1 4,
    (genLoop_no_guard wTable wRejectCam rigidOne 1 1 0 wRng (by decide) (fun _ => rfl)).2⟩⟩

/-- The loop invariant holds at the initial state. -/
theorem genInv_init (T : ModelTable) (cam : Camera) (gt : Rigid3d) (numInliers : ℕ)
    (noise : ℚ) (rng : RngOracle) : genInv T cam gt numInliers noise rng genInit := by
  refine ⟨rfl, rfl, rfl, rfl, [], rfl, List.Pairwise.nil, ?_, ?_⟩
  · intro a ha
    simp at ha
  · intro k hk
    simp [genInit] at hk

/-- One loop iteration preserves the invariant. -/
theorem genInv_step (T : ModelTable) (cam : Camera) (gt : Rigid3d)
    (numPoints numInliers : ℕ) (noise : ℚ) (rng : RngOracle) (s : GenState)
    (hinv : genInv T cam gt numInliers noise rng s) :
    genInv T cam gt numInliers noise rng
      (genIter T cam gt numPoints numInliers noise rng s) := by
  obtain ⟨l1, l2, l3, l4, js, hlen, hsort, hbound, hstored⟩ := hinv
  by_cases hstop : numPoints ≤ s.cnt
  · have hid : genIter T cam gt numPoints numInliers noise rng s = s := by
      unfold genIter
      rw [if_pos hstop]
    rw [hid]
    exact ⟨l1, l2, l3, l4, js, hlen, hsort, hbound, hstored⟩
  · have hcnt := not_le.mp hstop
    by_cases hok : candOk T cam gt rng s.rix = true
    · rw [genIter_accept T cam gt numPoints numInliers noise rng s hcnt hok]
      refine ⟨by simp [l1], by simp [l2], by simp [l3], by simp [l4],
        js ++ [s.rix], by simp [hlen], ?_, ?_, ?_⟩
      · rw [List.pairwise_append]
        refine ⟨hsort, List.pairwise_singleton _ _, ?_⟩
        intro a ha b hb
        simp only [List.mem_singleton] at hb
        subst hb
        exact hbound a ha
      · intro a ha
        have hc3 : 3 ≤ (if s.cnt < numInliers ∧ ¬(0 < noise) then 3 else 11) := by
          split <;> omega
        show a < s.rix + (if s.cnt < numInliers ∧ ¬(0 < noise) then 3 else 11)
        simp only [List.mem_append, List.mem_singleton] at ha
        rcases ha with ha | ha
        · have := hbound a ha
          omega
        · subst ha
          omega
      · intro k hk
        by_cases hklt : k < s.cnt
        · have hgk : (js ++ [s.rix]).getD k 0 = js.getD k 0 :=
            getD_append_left js [s.rix] k 0 (by omega)
          obtain ⟨o1, o2, o3, o4, o5⟩ := hstored k hklt
          rw [hgk]
          refine ⟨o1, ?_, ?_, ?_, ?_⟩
          · rw [getD_append_left _ _ k _ (by omega)]
            exact o2
          · rw [getD_append_left _ _ k _ (by omega)]
            exact o3
          · rw [getD_append_left _ _ k _ (by omega)]
            exact o4
          · rw [getD_append_left _ _ k _ (by omega)]
            exact o5
        · have hk1 : k < s.cnt + 1 := hk
          have hk0 : k = s.cnt := by omega
          subst hk0
          have hgk : (js ++ [s.rix]).getD s.cnt 0 = s.rix := by
            have h := getD_append_last js s.rix 0
            rwa [hlen] at h
          rw [hgk]
          refine ⟨hok, ?_, ?_, ?_, ?_⟩
          · have h := getD_append_last s.p1
              ((storedQuad T cam gt rng numInliers noise s.rix s.cnt).1) ((0 : ℚ), (0 : ℚ))
            rwa [l1] at h
          · have h := getD_append_last s.p2
              ((storedQuad T cam gt rng numInliers noise s.rix s.cnt).2.1) ((0 : ℚ), (0 : ℚ))
            rwa [l2] at h
          · have h := getD_append_last s.p1r
              ((storedQuad T cam gt rng numInliers noise s.rix s.cnt).2.2.1) ((0 : ℚ), (0 : ℚ))
            rwa [l3] at h
          · have h := getD_append_last s.p2r
              ((storedQuad T cam gt rng numInliers noise s.rix s.cnt).2.2.2) ((0 : ℚ), (0 : ℚ))
            rwa [l4] at h
    · have hokf : candOk T cam gt rng s.rix = false := by
        cases hcase : candOk T cam gt rng s.rix
        · rfl
        · exact absurd hcase hok
      rw [genIter_reject T cam gt numPoints numInliers noise rng s hcnt hokf]
      refine ⟨l1, l2, l3, l4, js, hlen, hsort, ?_, hstored⟩
      intro a ha
      have := hbound a ha
      show a < s.rix + 3
      omega

/-- The loop preserves the invariant for any fuel. -/
theorem genLoop_inv (T : ModelTable) (cam : Camera) (gt : Rigid3d)
    (numPoints numInliers : ℕ) (noise : ℚ) (rng : RngOracle) :
    ∀ (fuel : ℕ) (s : GenState), genInv T cam gt numInliers noise rng s →
      genInv T cam gt numInliers noise rng
        (genLoop T cam gt numPoints numInliers noise rng fuel s) := by
  intro fuel
  induction fuel with
  | zero => intro s h; simpa [genLoop] using h
  | succ n ih =>
    intro s h
    simp only [genLoop]
    exact ih _ (genInv_step T cam gt numPoints numInliers noise rng s h)

/-- C2: when the rejection-sampling loop exits normally (the accepted count
reached numPoints), the four stored point lists each hold exactly numPoints
entries, in acceptance order: there is a strictly increasing sequence of draw
indices of accepted candidates — each sampled by two uniform draws over the
valid image area and one uniform depth draw, and passing the NaN and
image-bounds tests on its view-2 refractive projection — whose k-th member
determines the k-th stored entries of all four lists: the candidate's pixel
pairs, perturbed per coordinate by Gaussian draws of the configured standard
deviation for the first floor(numPoints times inlier ratio) accepted points
(no perturbation when the noise level is not positive) and of standard
deviation 200 for every later accepted point; and GenerateRandom2D2DPoints
returns exactly these four lists, with the ground-truth pose recorded. -/
theorem generateRandom2D2DPoints_spec (T : ModelTable) (cam : Camera) (gt : Rigid3d)
    (rng : RngOracle) (numPoints : ℕ) (noise inlierRatio : ℚ) (fuel : ℕ)
    (numInliers : ℕ) (hni : numInliers = ⌊(numPoints : ℚ) * inlierRatio⌋₊)
    (s : GenState) (hs : s = genLoop T cam gt numPoints numInliers noise rng fuel genInit)
    (hterm : s.cnt = numPoints) :
    (s.p1.length = numPoints ∧ s.p2.length = numPoints ∧ s.p1r.length = numPoints ∧
      s.p2r.length = numPoints) ∧
    (∃ js : List ℕ, js.length = numPoints ∧ js.Pairwise (· < ·) ∧
      ∀ k, k < numPoints →
        candOk T cam gt rng (js.getD k 0) = true ∧
        s.p1.getD k (0, 0) = (storedQuad T cam gt rng numInliers noise (js.getD k 0) k).1 ∧
        s.p2.getD k (0, 0) =
          (storedQuad T cam gt rng numInliers noise (js.getD k 0) k).2.1 ∧
        s.p1r.getD k (0, 0) =
          (storedQuad T cam gt rng numInliers noise (js.getD k 0) k).2.2.1 ∧
        s.p2r.getD k (0, 0) =
          (storedQuad T cam gt rng numInliers noise (js.getD k 0) k).2.2.2) ∧
    (∀ pd pd', GenerateRandom2D2DPoints T cam numPoints gt pd noise inlierRatio rng fuel =
        some pd' →
      pd'.points2D1 = s.p1 ∧ pd'.points2D2 = s.p2 ∧ pd'.points2D1_refrac = s.p1r ∧
      pd'.points2D2_refrac = s.p2r ∧ pd'.cam2_from_cam1_gt = gt) := by
  have hinv := genLoop_inv T cam gt numPoints numInliers noise rng fuel genInit
    (genInv_init T cam gt numInliers noise rng)
  rw [← hs] at hinv
  obtain ⟨l1, l2, l3, l4, js, hlen, hsort, hbound, hstored⟩ := hinv
  refine ⟨⟨hterm ▸ l1, hterm ▸ l2, hterm ▸ l3, hterm ▸ l4⟩,
    ⟨js, hterm ▸ hlen, hsort, ?_⟩, ?_⟩
  · intro k hk
    exact hstored k (hterm.symm ▸ hk)
  · intro pd pd' h
    rw [GenerateRandom2D2DPoints, ← hni, ← hs] at h
    split at h
    · exact absurd h (by simp)
    · split at h
      · exact absurd h (by simp)
      · simp only [Option.some.injEq] at h
        subst h
        exact ⟨rfl, rfl, rfl, rfl, rfl⟩

set_option maxRecDepth 8000 in
/-- Concrete instantiation of the C2 theorem: one requested point, inlier
ratio one, zero noise, one loop iteration accepting the first candidate. -/
theorem generateRandom2D2DPoints_spec_witness :
    (1 : ℕ) = ⌊((1 : ℕ) : ℚ) * 1⌋₊ ∧
    (genLoop wTable wRefracCam rigidOne 1 1 0 wRng 1 genInit).cnt = 1 ∧
    ((genLoop wTable wRefracCam rigidOne 1 1 0 wRng 1 genInit).p1.length = 1 ∧
     (genLoop wTable wRefracCam rigidOne 1 1 0 wRng 1 genInit).p2.length = 1 ∧
     (genLoop wTable wRefracCam rigidOne 1 1 0 wRng 1 genInit).p1r.length = 1 ∧
     (genLoop wTable wRefracCam rigidOne 1 1 0 wRng 1 genInit).p2r.length = 1) :=
  ⟨by with_unfolding_all decide, by with_unfolding_all decide,
   (generateRandom2D2DPoints_spec wTable wRefracCam rigidOne wRng 1 0 1 1 1
     (by with_unfolding_all decide) _ rfl (by with_unfolding_all decide)).1⟩
